import Mathlib

/-!
# A shallow embedding of `src/script.js`

The script is a browser enhancement layer: reveal-on-scroll, skill bars, a
percentage counter, a throttle helper and a slideshow.  Each section below
translates one part of the script into executable Lean definitions and then
states and proves properties of those definitions.

Conventions of the embedding

* ECMAScript strings are Lean strings; the string helpers work on the list of
  characters and follow the ECMAScript algorithms (`trim`, `split(/\s+/)`,
  `parseInt`).
* ECMAScript numbers are doubles.  Where the script computes with numbers that
  can be arbitrarily large (the target of the percentage counter, the
  argument of `currentSlide`, the time arithmetic of `throttle`), the
  integer results are rounded to the nearest double, ties to even, with the
  infinities as values of their own.  Array indices, array lengths and the
  entries of the skill table are small natural numbers.
* Results of geometry tests (`rect.top < ...`) are inputs of the model: the
  host computes them from layout data in floating point, and the script only
  branches on the Boolean outcome.
* Closure variables of the script (`hasAnimatedSkills`, `last`, `timeout`,
  `slideIndex`, ...) are fields of explicit state records.
* An exception leaves the mutations made so far in place, so a completion
  carries the state in both outcomes.
-/

namespace Portfolio

/-! ## ECMAScript helpers -/

/-- Code points that `\s` matches and that `String.prototype.trim` and
`parseInt` strip: ECMAScript WhiteSpace and LineTerminator. -/
def isJSWhiteSpace (c : Char) : Bool :=
  let n := c.toNat
  n == 0x09 || n == 0x0A || n == 0x0B || n == 0x0C || n == 0x0D || n == 0x20 ||
  n == 0xA0 || n == 0x1680 || (0x2000 ≤ n && n ≤ 0x200A) || n == 0x2028 ||
  n == 0x2029 || n == 0x202F || n == 0x205F || n == 0x3000 || n == 0xFEFF

/-- Removal of leading white space. -/
def jsTrimStart (cs : List Char) : List Char :=
  cs.dropWhile isJSWhiteSpace

/-- Removal of trailing white space. -/
def jsTrimEnd : List Char → List Char
  | [] => []
  | c :: cs =>
    match jsTrimEnd cs with
    | [] => if isJSWhiteSpace c then [] else [c]
    | r :: rs => c :: r :: rs

/-- The method `String.prototype.trim`. -/
def jsTrim (cs : List Char) : List Char :=
  jsTrimEnd (jsTrimStart cs)

/-- Worker of `split(/\s+/)`: `gap` tells that the previous character was
white space, `cur` is the current piece in reverse. -/
def jsSplitWsAux : List Char → Bool → List Char → List (List Char)
  | [], _, cur => [cur.reverse]
  | c :: cs, gap, cur =>
    if isJSWhiteSpace c then
      if gap then jsSplitWsAux cs true cur
      else cur.reverse :: jsSplitWsAux cs true []
    else jsSplitWsAux cs false (c :: cur)

/-- The call `str.split(/\s+/)`: the pieces between maximal runs of white
space (a leading or trailing run yields an empty piece, the empty string
yields one empty piece). -/
def jsSplitWs (cs : List Char) : List (List Char) :=
  jsSplitWsAux cs false []

/-- Value of a character as a digit in the given radix, when it is one. -/
def digitValue (radix : Nat) (c : Char) : Option Nat :=
  let n := c.toNat
  let v : Option Nat :=
    if 48 ≤ n ∧ n ≤ 57 then some (n - 48)
    else if 97 ≤ n ∧ n ≤ 122 then some (n - 87)
    else if 65 ≤ n ∧ n ≤ 90 then some (n - 55)
    else none
  match v with
  | some d => if d < radix then some d else none
  | none => none

/-- Longest run of leading digits in the radix, as the value accumulated so
far and whether at least one digit was read. -/
def parseDigits (radix : Nat) : List Char → Nat → Bool → Option Nat
  | [], acc, seen => if seen then some acc else none
  | c :: cs, acc, seen =>
    match digitValue radix c with
    | some d => parseDigits radix cs (acc * radix + d) true
    | none => if seen then some acc else none

/-! ## ECMAScript numbers -/

/-- Rounding of a natural number to a multiple of `2 ^ e`: to the nearest
one, and to the even one of two equally near. -/
def roundAt (e a : Nat) : Nat :=
  let q := a / 2 ^ e
  let r := a % 2 ^ e
  if 2 * r > 2 ^ e ∨ (2 * r = 2 ^ e ∧ q % 2 = 1) then (q + 1) * 2 ^ e else q * 2 ^ e

/-- Search, from exponent `e` upwards, for the exponent at which `a` has at
most 53 significant bits, and rounding there. -/
def roundNatFrom : Nat → Nat → Nat → Nat
  | 0, e, a => roundAt e a
  | fuel + 1, e, a => if a < 2 ^ (53 + e) then roundAt e a else roundNatFrom fuel (e + 1) a

/-- The double nearest to a natural number below `2 ^ 1024` (53 significant
bits, ties to even). -/
def roundNat (a : Nat) : Nat :=
  roundNatFrom 971 0 a

/-- The double nearest to an integer whose magnitude is in the finite range:
the result of an addition or subtraction of integer-valued doubles whose
exact result is that integer. -/
def doubleOfInt (x : Int) : Int :=
  if x < 0 then -(roundNat x.natAbs : Int) else (roundNat x.natAbs : Int)

/-- The least magnitude that rounds to an infinity, `2 ^ 1024 - 2 ^ 970`:
half a unit in the last place above the largest finite double. -/
def doubleOverflow : Nat :=
  179769313486231580793728971405303415079934132710037826936173778980444968292764750946649017977587207096330286416692887910946555547851940402630657488671505820681908902000708383676273854845817711531764475730270069855571366959622842914819860834936475292719074168444365510704342711559699508093042880177904174497792

/-- An ECMAScript number with an integer value, an infinity, or `NaN`.  The
two zeros are not told apart: they behave alike wherever the script uses
them. -/
inductive JSNumber where
  | finite (v : Int)
  | posInf
  | negInf
  | nan
  deriving DecidableEq, Repr

/-- The number for a mathematical integer: the nearest double, or an
infinity beyond the finite range. -/
def JSNumber.ofInt (x : Int) : JSNumber :=
  if doubleOverflow ≤ x.natAbs then (if x < 0 then .negInf else .posInf)
  else .finite (doubleOfInt x)

/-- The sum `x + k` of a number and a small integer. -/
def JSNumber.addInt (x : JSNumber) (k : Int) : JSNumber :=
  match x with
  | .finite v => .ofInt (v + k)
  | other => other

/-- The comparison `x < y`; every comparison with `NaN` is false. -/
def JSNumber.lt : JSNumber → JSNumber → Bool
  | .finite a, .finite b => decide (a < b)
  | .finite _, .posInf => true
  | .negInf, .finite _ => true
  | .negInf, .posInf => true
  | _, _ => false

/-- Whether the decimal `c` converts to the double `x`. -/
def readsBack (c x : Nat) : Bool :=
  JSNumber.ofInt c == .finite x

/-- Search for the decimal with the fewest significant digits that converts
to the double `x`, which has `n` decimal digits, from `k` significant digits
upwards; of two candidates with the same number of digits the one nearer to
`x` is taken, and the one with the even last digit when they are equally
near. -/
def shortestFrom (x n : Nat) : Nat → Nat → Nat
  | 0, _ => x
  | fuel + 1, k =>
    let t := 10 ^ (n - k)
    let lo := x / t * t
    let hi := lo + t
    let okLo := readsBack lo x
    let okHi := readsBack hi x
    if okLo && okHi then
      if x - lo < hi - x then lo
      else if hi - x < x - lo then hi
      else if (x / t) % 2 = 0 then lo else hi
    else if okLo then lo
    else if okHi then hi
    else shortestFrom x n fuel (k + 1)

/-- The decimal that `Number.prototype.toString` prints for a positive
integer-valued double. -/
def shortestDecimal (x : Nat) : Nat :=
  shortestFrom x (Nat.toDigits 10 x).length (Nat.toDigits 10 x).length 1

/-- Removal of trailing zero digits. -/
def dropTrailingZeros (cs : List Char) : List Char :=
  (cs.reverse.dropWhile (fun c => c == '0')).reverse

/-- ECMAScript `Number::toString` for a natural-number-valued double: plain
digits up to 21 of them, exponent form beyond. -/
def natToJSString (x : Nat) : String :=
  if x = 0 then "0"
  else
    let ds := Nat.toDigits 10 (shortestDecimal x)
    if ds.length ≤ 21 then String.mk ds
    else
      match dropTrailingZeros ds with
      | [] => "0"
      | d :: rest =>
        String.mk (d :: (if rest.isEmpty then [] else '.' :: rest)) ++ "e+" ++
          toString (ds.length - 1)

/-- ECMAScript `ToString` of a number. -/
def JSNumber.toJSString : JSNumber → String
  | .finite v => if v < 0 then "-" ++ natToJSString v.natAbs else natToJSString v.natAbs
  | .posInf => "Infinity"
  | .negInf => "-Infinity"
  | .nan => "NaN"

/-- The global `parseInt(string)` without a radix argument.  Leading white
space is skipped, a sign is read, a `0x`/`0X` marker selects radix 16, the
longest run of digits is converted to the nearest number, and a string
without digits gives `NaN`. -/
def parseInt (s : String) : JSNumber :=
  let cs := jsTrimStart s.data
  let (neg, cs) :=
    match cs with
    | '-' :: rest => (true, rest)
    | '+' :: rest => (false, rest)
    | _ => (false, cs)
  let (radix, cs) :=
    match cs with
    | '0' :: 'x' :: rest => (16, rest)
    | '0' :: 'X' :: rest => (16, rest)
    | _ => (10, cs)
  match parseDigits radix cs 0 false with
  | some n => .ofInt (if neg then -(n : Int) else (n : Int))
  | none => .nan

/-- Values that a property read on the `skillPercent` object can produce. -/
inductive JSValue where
  | undefined
  | number (n : Nat)
  | builtinFunction (name : String)
  | objectPrototype
  deriving DecidableEq, Repr

/-- ECMAScript `ToBoolean`. -/
def JSValue.truthy : JSValue → Bool
  | .undefined => false
  | .number n => n != 0
  | .builtinFunction _ => true
  | .objectPrototype => true

/-- The operator `a || b`. -/
def JSValue.orElse (a b : JSValue) : JSValue :=
  if a.truthy then a else b

/-- ECMAScript `ToString`, as used by a template literal.  A built-in
function prints in the NativeFunction form, a plain object through
`Object.prototype.toString`. -/
def JSValue.toJSString : JSValue → String
  | .undefined => "undefined"
  | .number n => toString n
  | .builtinFunction name => "function " ++ name ++ "() \x7b [native code] \x7d"
  | .objectPrototype => "[object Object]"

/-! ## Section 4 of the script: the skill table and `animateSkillBars` -/

/-- Own properties of the object literal `skillPercent` (lines 121-132). -/
def skillPercentOwn : List (String × Nat) :=
  [("aws", 75), ("frontend", 70), ("python", 72), ("bootstrap", 55),
   ("java", 60), ("linux", 65), ("c", 55), ("html", 70), ("css", 70),
   ("javascript", 60)]

/-- Function-valued properties that every object literal inherits from
`Object.prototype`, with the `name` of the function found there. -/
def objectPrototypeMethods : List (String × String) :=
  [("constructor", "Object"), ("hasOwnProperty", "hasOwnProperty"),
   ("isPrototypeOf", "isPrototypeOf"),
   ("propertyIsEnumerable", "propertyIsEnumerable"),
   ("toLocaleString", "toLocaleString"), ("toString", "toString"),
   ("valueOf", "valueOf"), ("__defineGetter__", "__defineGetter__"),
   ("__defineSetter__", "__defineSetter__"),
   ("__lookupGetter__", "__lookupGetter__"),
   ("__lookupSetter__", "__lookupSetter__")]

/-- The property read `skillPercent[key]`: own properties first, then the
prototype chain, which for an object literal is `Object.prototype` (its
methods and the `__proto__` accessor). -/
def skillPercent (key : String) : JSValue :=
  match skillPercentOwn.lookup key with
  | some n => .number n
  | none =>
    match objectPrototypeMethods.lookup key with
    | some name => .builtinFunction name
    | none => if key == "__proto__" then .objectPrototype else .undefined

/-- Line 143: `(span.className || '').trim().split(/\s+/)[0] || ''`. -/
def skillLabel (className : String) : String :=
  match jsSplitWs (jsTrim className.data) with
  | [] => ""
  | piece :: _ => String.mk piece

/-- Line 144: `skillPercent[cls] || 40`. -/
def skillPct (className : String) : JSValue :=
  (skillPercent (skillLabel className)).orElse (.number 40)

/-- The template literal `${pct}%` of lines 145, 147 and 152. -/
def skillLevelText (className : String) : String :=
  (skillPct className).toJSString ++ "%"

/-- A `.progress-line span` element: its class attribute, the value the
style sheets give to `--skill-level` (empty when they give none), and the
inline style properties, dataset entry and attribute that the script
writes. -/
structure Span where
  className : String
  cssLevel : String := ""
  skillLevel : Option String := none
  width : Option String := none
  animationPlayState : Option String := none
  animated : Option String := none
  dataPct : Option String := none
  deriving DecidableEq, Repr

/-- One write of the script to a span, recorded in execution order. -/
structure DomWrite where
  span : Nat
  target : String
  name : String
  value : String
  deriving DecidableEq, Repr

/-- Closure state of one `step` callback chain (lines 179-186): the running
value `current` and the `target` it counts up to. -/
structure Counter where
  current : JSNumber
  target : JSNumber
  deriving DecidableEq, Repr

/-- A `.skill` element as `animateSkills` sees it: its class list, the index
in `skillSpans` of its first `.progress-line span` (if any), the text of
its `.percentage` element (if any), and the counter of the frame callback
chain that is in flight for it (if any). -/
structure Skill where
  classes : List String
  bar : Option Nat
  percentage : Option String
  session : Option Counter := none
  deriving DecidableEq, Repr

/-- State shared by sections 3 and 4: the media query result, whether the
`const animateSkillBars` binding of line 137 has been evaluated yet, the
one-shot latch, the spans and skills, and the log of writes to spans. -/
structure SkillBars where
  prefersReducedMotion : Bool
  animateSkillBarsReady : Bool
  hasAnimatedSkills : Bool
  skillSpans : List Span
  skills : List Skill
  writes : List DomWrite := []
  deriving DecidableEq, Repr

/-- Body of the `forEach` callback of lines 141-153 for the span at index
`i`: the updated span and the writes performed.  The assignment to
`style.width` only takes effect for a value that parses as a width, which a
number followed by `%` does and the text of a function or object does
not. -/
def processSpan (reduced : Bool) (i : Nat) (span : Span) : Span × List DomWrite :=
  if span.animated = some "1" then (span, [])
  else
    let pct := skillPct span.className
    let level := pct.toJSString ++ "%"
    let s1 := { span with skillLevel := some level }
    let s2 :=
      if reduced then
        match pct with
        | .number _ => { s1 with width := some level }
        | _ => s1
      else { s1 with animationPlayState := some "running" }
    ({ s2 with animated := some "1", dataPct := some level },
     [⟨i, "style", "--skill-level", level⟩,
      if reduced then ⟨i, "style", "width", level⟩
      else ⟨i, "style", "animation-play-state", "running"⟩,
      ⟨i, "dataset", "animated", "1"⟩,
      ⟨i, "attribute", "data-pct", level⟩])

/-- The loop `skillSpans.forEach(...)` from index `i` on. -/
def processSpans (reduced : Bool) : Nat → List Span → List Span × List DomWrite
  | _, [] => ([], [])
  | i, span :: rest =>
    let (span1, w1) := processSpan reduced i span
    let (rest1, w2) := processSpans reduced (i + 1) rest
    (span1 :: rest1, w1 ++ w2)

/-- Body of `animateSkillBars` (lines 137-154). -/
def animateSkillBars (b : SkillBars) : SkillBars :=
  if b.hasAnimatedSkills then b
  else
    let (spans, ws) := processSpans b.prefersReducedMotion 0 b.skillSpans
    { b with hasAnimatedSkills := true, skillSpans := spans, writes := b.writes ++ ws }

/-! ## Section 3 of the script: reveal on scroll -/

/-- Errors the modelled code can raise. -/
inductive JSError where
  | referenceError (binding : String)
  | typeError (what : String)
  deriving DecidableEq, Repr

/-- Outcome of running a piece of script: normal completion or an uncaught
exception, each with the state reached. -/
inductive Completion (σ : Type) where
  | normal (state : σ)
  | throw (error : JSError) (state : σ)
  deriving DecidableEq, Repr

/-- State carried by a completion. -/
def Completion.state {σ : Type} : Completion σ → σ
  | .normal s => s
  | .throw _ s => s

/-- Whether a completion is an exception. -/
def Completion.threw {σ : Type} : Completion σ → Bool
  | .normal _ => false
  | .throw _ _ => true

/-- The method `classList.add(token)`. -/
def classListAdd (classes : List String) (token : String) : List String :=
  if classes.contains token then classes else classes ++ [token]

/-- A `.reveal` element: its class list and its `id`. -/
structure RevealEl where
  classes : List String
  id : String := ""
  deriving DecidableEq, Repr

/-- Whether the element carries the class `is-visible`. -/
def RevealEl.isVisible (el : RevealEl) : Bool :=
  el.classes.contains "is-visible"

/-- The test of line 86: `el.classList.contains('about-me') || el.id === 'about'`. -/
def RevealEl.isAbout (el : RevealEl) : Bool :=
  el.classes.contains "about-me" || el.id == "about"

/-- Evaluation of the call expression `animateSkillBars()`.  The binding is a
`const` declared on line 137, so a call that runs before that line has been
evaluated raises a ReferenceError. -/
def callAnimateSkillBars (b : SkillBars) : Completion SkillBars :=
  if b.animateSkillBarsReady then .normal (animateSkillBars b)
  else .throw (.referenceError "animateSkillBars") b

/-- The function `revealOn` (lines 84-89). -/
def revealOn (el : RevealEl) (b : SkillBars) : Completion (RevealEl × SkillBars) :=
  let el1 := { el with classes := classListAdd el.classes "is-visible" }
  if el1.isAbout then
    match callAnimateSkillBars b with
    | .normal b1 => .normal (el1, b1)
    | .throw e b1 => .throw e (el1, b1)
  else .normal (el1, b)

/-- The loop `revealEls.forEach(callback)` from index `i` on: the callback
receives the index and the element and may update the element and the shared
state; an exception ends the loop. -/
def forEachReveal (f : Nat → RevealEl → SkillBars → Completion (RevealEl × SkillBars)) :
    Nat → List RevealEl → SkillBars → Completion (List RevealEl × SkillBars)
  | _, [], b => .normal ([], b)
  | i, el :: rest, b =>
    match f i el b with
    | .normal (el1, b1) =>
      match forEachReveal f (i + 1) rest b1 with
      | .normal (rest1, b2) => .normal (el1 :: rest1, b2)
      | .throw e (rest1, b2) => .throw e (el1 :: rest1, b2)
    | .throw e (el1, b1) => .throw e (el1 :: rest, b1)

/-- Callback of the fallback check (lines 107-111); `inView i` is the outcome
of `rect.top < vh * 0.9` for the element at index `i`. -/
def checkRevealEl (inView : Nat → Bool) (i : Nat) (el : RevealEl) (b : SkillBars) :
    Completion (RevealEl × SkillBars) :=
  if el.isVisible then .normal (el, b)
  else if inView i then revealOn el b
  else .normal (el, b)

/-- Callback of the initial check (lines 518-521): the same geometry test
without the `is-visible` guard. -/
def initialCheckEl (inView : Nat → Bool) (i : Nat) (el : RevealEl) (b : SkillBars) :
    Completion (RevealEl × SkillBars) :=
  if inView i then revealOn el b else .normal (el, b)

/-- The document as the modelled sections see it. -/
structure Page where
  revealObserverSupported : Bool
  revealEls : List RevealEl
  bars : SkillBars
  deriving DecidableEq, Repr

/-- Lift of a loop over the `.reveal` elements to the page. -/
def Page.withReveal (p : Page) (r : Completion (List RevealEl × SkillBars)) : Completion Page :=
  match r with
  | .normal (els, b) => .normal { p with revealEls := els, bars := b }
  | .throw e (els, b) => .throw e { p with revealEls := els, bars := b }

/-- Line 92: `revealEls.forEach(revealOn)`. -/
def revealAll (p : Page) : Completion Page :=
  p.withReveal (forEachReveal (fun _ el b => revealOn el b) 0 p.revealEls p.bars)

/-- Function wrapped by `throttle` on lines 105-112 (the fallback check). -/
def checkReveal (inView : Nat → Bool) (p : Page) : Completion Page :=
  p.withReveal (forEachReveal (checkRevealEl inView) 0 p.revealEls p.bars)

/-- Loop of lines 518-521 (the initial check). -/
def initialCheck (inView : Nat → Bool) (p : Page) : Completion Page :=
  p.withReveal (forEachReveal (initialCheckEl inView) 0 p.revealEls p.bars)

/-- Callback of the IntersectionObserver (lines 94-101) for one batch of
entries, each given by the index of its target and its `isIntersecting`
flag. -/
def observerCallback : List (Nat × Bool) → Page → Completion Page
  | [], p => .normal p
  | (i, intersecting) :: rest, p =>
    if intersecting then
      match p.revealEls.get? i with
      | none => observerCallback rest p
      | some el =>
        match revealOn el p.bars with
        | .normal (el1, b1) =>
          observerCallback rest { p with revealEls := p.revealEls.set i el1, bars := b1 }
        | .throw e (el1, b1) =>
          .throw e { p with revealEls := p.revealEls.set i el1, bars := b1 }
    else observerCallback rest p

/-- Callback of the timer set by the load handler (lines 158-163) from span
index `i` on: one call of `animateSkillBars` per span for which
`rect.top < window.innerHeight - 100` holds. -/
def loadCheckFrom (inView : Nat → Bool) : Nat → Nat → SkillBars → Completion SkillBars
  | _, 0, b => .normal b
  | i, n + 1, b =>
    if inView i then
      match callAnimateSkillBars b with
      | .normal b1 => loadCheckFrom inView (i + 1) n b1
      | .throw e b1 => .throw e b1
    else loadCheckFrom inView (i + 1) n b

/-- The load-time check over all of `skillSpans`. -/
def loadCheck (inView : Nat → Bool) (b : SkillBars) : Completion SkillBars :=
  loadCheckFrom inView 0 b.skillSpans.length b

/-- The two places that call `animateSkillBars` after the script has been
evaluated: `revealOn` applied to some `.reveal` element (from the observer
callback or a geometry check), and the timer callback of the load handler. -/
inductive SkillTrigger where
  | reveal (el : RevealEl)
  | loadTimer (inView : Nat → Bool)

/-- Effect of one trigger on the skill-bar state. -/
def SkillTrigger.run : SkillTrigger → SkillBars → Completion SkillBars
  | .reveal el, b =>
    match revealOn el b with
    | .normal (_, b1) => .normal b1
    | .throw e (_, b1) => .throw e b1
  | .loadTimer inView, b => loadCheck inView b

/-- Whether a trigger reaches a call `animateSkillBars()` on a page with
`spanCount` spans. -/
def SkillTrigger.calls (spanCount : Nat) : SkillTrigger → Bool
  | .reveal el => ({ el with classes := classListAdd el.classes "is-visible" } : RevealEl).isAbout
  | .loadTimer inView => (List.range spanCount).any inView

/-- A sequence of triggers, each one a task of its own: an exception in one
does not keep the later ones from running. -/
def runTriggers : List SkillTrigger → SkillBars → SkillBars
  | [], b => b
  | t :: ts, b => runTriggers ts (t.run b).state

/-! ## The percentage counter `animateSkills` -/

/-- The read `getComputedStyle(bar).getPropertyValue("--skill-level")`: the
inline value once the script has set one, the style-sheet value otherwise. -/
def Span.computedLevel (span : Span) : String :=
  match span.skillLevel with
  | some v => v
  | none => span.cssLevel

/-- Line 179: `parseInt(...) || 80`: `NaN` and zero are falsy, every other
number, the infinities included, is kept. -/
def counterTarget (level : String) : JSNumber :=
  match parseInt level with
  | .nan => .finite 80
  | .finite v => if v = 0 then .finite 80 else .finite v
  | other => other

/-- Callback of the loop in `animateSkills` (lines 171-188) for the skill at
index `i`; `inView i` is the outcome of `rect.top < window.innerHeight - 80`.
A skill without a bar makes `getComputedStyle` raise a TypeError. -/
def animateSkill (spans : List Span) (inView : Nat → Bool) (i : Nat) (sk : Skill) :
    Completion Skill :=
  if inView i && !sk.classes.contains "revealed" then
    let sk1 := { sk with classes := classListAdd sk.classes "revealed" }
    match sk.bar.bind spans.get? with
    | none => .throw (.typeError "getComputedStyle") sk1
    | some span =>
      .normal { sk1 with session := some ⟨.finite 0, counterTarget span.computedLevel⟩ }
  else .normal sk

/-- The loop `skillEls.forEach(...)` of `animateSkills` from index `i` on. -/
def animateSkillsFrom (spans : List Span) (inView : Nat → Bool) :
    Nat → List Skill → Completion (List Skill)
  | _, [] => .normal []
  | i, sk :: rest =>
    match animateSkill spans inView i sk with
    | .normal sk1 =>
      match animateSkillsFrom spans inView (i + 1) rest with
      | .normal rest1 => .normal (sk1 :: rest1)
      | .throw e rest1 => .throw e (sk1 :: rest1)
    | .throw e sk1 => .throw e (sk1 :: rest)

/-- The function `animateSkills` (lines 169-190).  It does not consult
`prefersReducedMotion`. -/
def animateSkills (inView : Nat → Bool) (b : SkillBars) : Completion SkillBars :=
  match animateSkillsFrom b.skillSpans inView 0 b.skills with
  | .normal sks => .normal { b with skills := sks }
  | .throw e sks => .throw e { b with skills := sks }

/-- One run of the `step` callback (lines 181-186) up to the assignment to
`current`: the new counter and whether `current < target` holds, that is,
whether another frame is requested once the text has been written. -/
def Counter.step (c : Counter) : Counter × Bool :=
  let cur := c.current.addInt 2
  let cur := if c.target.lt cur then c.target else cur
  ({ c with current := cur }, cur.lt c.target)

/-- Text written by `percentEl.textContent = current + "%"`. -/
def Counter.text (c : Counter) : String :=
  c.current.toJSString ++ "%"

/-- Values rendered by a callback chain during at most `fuel` frames, and
whether a callback is still scheduled afterwards.  `hasPercentage` tells
whether the skill has a `.percentage` element; without one the assignment to
`textContent` raises a TypeError in the first frame, so that nothing is
rendered and nothing is scheduled again. -/
def chainTrace : Nat → Bool → Counter → List JSNumber × Bool
  | 0, _, _ => ([], true)
  | fuel + 1, hasPercentage, c =>
    let (c1, again) := c.step
    if !hasPercentage then ([], false)
    else if again then
      let (vs, pending) := chainTrace fuel hasPercentage c1
      (c1.current :: vs, pending)
    else ([c1.current], false)

/-- Number of frames the specification gives for a counter with target `T`:
the ceiling of `T / 2`, and one frame for a target below one. -/
def counterTicks (T : Int) : Nat :=
  max 1 ((T + 1) / 2).toNat

/-- Values the specification gives for a counter with target `T`: the `k`-th
rendered value is `min (2 * k) T`, for `k` from one to `counterTicks T`. -/
def counterValues (T : Int) : List Int :=
  (List.range (counterTicks T)).map fun (k : Nat) => min (2 * ((k : Int) + 1)) T

/-- One animation frame for one skill: its scheduled `step` callback runs.
Without a `.percentage` element the assignment raises inside the callback,
which ends the chain. -/
def Skill.frame (sk : Skill) : Skill :=
  match sk.session with
  | none => sk
  | some c =>
    let (c1, again) := c.step
    match sk.percentage with
    | none => { sk with session := none }
    | some _ =>
      { sk with percentage := some c1.text, session := if again then some c1 else none }

/-- One animation frame: every scheduled `step` callback runs once. -/
def SkillBars.frame (b : SkillBars) : SkillBars :=
  { b with skills := b.skills.map Skill.frame }

/-- The given number of animation frames. -/
def SkillBars.frames : Nat → SkillBars → SkillBars
  | 0, b => b
  | n + 1, b => SkillBars.frames n b.frame

/-! ## Top-level evaluation of the script -/

/-- Outcomes of the geometry tests made while the script is evaluated: by the
first fallback check (line 115), by `animateSkills()` (line 192) and by the
initial check (lines 518-521). -/
structure StartupGeometry where
  firstCheck : Nat → Bool
  skills : Nat → Bool
  initialCheck : Nat → Bool

/-- Lines 91-116, the three-way choice of the reveal section: with the
reduced-motion preference every element is revealed at once; otherwise an
observer is set up when the host has one (nothing happens until it reports);
otherwise the throttled `checkReveal` is installed and called once, and that
first call of a fresh wrapper runs the wrapped function at once. -/
def revealSection (firstCheck : Nat → Bool) (p : Page) : Completion Page :=
  if p.bars.prefersReducedMotion then revealAll p
  else if p.revealObserverSupported then .normal p
  else checkReveal firstCheck p

/-- Evaluation of the script body, restricted to the statements that touch
the modelled state, in source order; the other sections are taken to
complete normally.  The bindings `hasAnimatedSkills` and `animateSkillBars`
(lines 135 and 137) come after the reveal section (lines 91-116), whose
synchronous calls therefore run while `animateSkillBars` is still unbound.
Then `animateSkills()` runs (line 192), and on a host without
IntersectionObserver, without the reduced-motion preference, the initial
check (lines 517-522).  An exception ends the evaluation. -/
def startup (geo : StartupGeometry) (p : Page) : Completion Page :=
  match revealSection geo.firstCheck
      { p with bars := { p.bars with animateSkillBarsReady := false, hasAnimatedSkills := false } } with
  | .throw e p1 => .throw e p1
  | .normal p1 =>
    let b1 := { p1.bars with hasAnimatedSkills := false, animateSkillBarsReady := true }
    match animateSkills geo.skills b1 with
    | .throw e b2 => .throw e { p1 with bars := b2 }
    | .normal b2 =>
      let p2 := { p1 with bars := b2 }
      if !p2.revealObserverSupported && !p2.bars.prefersReducedMotion then
        initialCheck geo.initialCheck p2
      else .normal p2

/-! ## The `throttle` helper (lines 15-34) -/

/-- A timer of the host: its handle and the clock value before which it does
not fire. -/
structure Timer where
  id : Nat
  due : Int
  deriving DecidableEq, Repr

/-- State of one wrapper returned by `throttle(fn, wait, leading)`: the
arguments, the closure variables `last` and `timeout`, the host timers this
wrapper has created and that are still pending, the next free timer handle,
and two observations of the run: the clock values at which `fn` was run (most
recent first, runs that raised included) and the number of `setTimeout`
calls. -/
structure Throttle where
  wait : Int
  leading : Bool
  last : Int
  timeout : Option Nat
  timers : List Timer
  nextId : Nat
  calls : List Int
  created : Nat
  deriving DecidableEq, Repr

/-- The wrapper right after `throttle(fn, wait, leading)` returned: `last = 0`
and `timeout = null`.  Timer handles are positive integers. -/
def throttle (wait : Int) (leading : Bool) : Throttle :=
  ⟨wait, leading, 0, none, [], 1, [], 0⟩

/-- Truthiness of the variable `timeout`. -/
def timeoutSet : Option Nat → Bool
  | some id => id != 0
  | none => false

/-- The host call `clearTimeout(id)`. -/
def clearTimer (timers : List Timer) (id : Nat) : List Timer :=
  timers.filter (fun t => t.id != id)

/-- One invocation of the wrapper (lines 17-33) when `Date.now()` is `now`;
`raises` tells whether `fn` raises if this invocation runs it.  In both
branches that run `fn`, the assignment `last = now` follows the call and is
skipped when `fn` raises; `clearTimeout` precedes the call.  The difference
`now - last` and the delay `wait - (now - last)` are computed in doubles. -/
def Throttle.invoke (s : Throttle) (now : Int) (raises : Bool) : Throttle :=
  if s.leading && s.last == 0 then
    let s1 := { s with calls := now :: s.calls }
    if raises then s1 else { s1 with last := now }
  else if doubleOfInt (now - s.last) ≥ s.wait then
    let timers :=
      match s.timeout with
      | some id => if timeoutSet (some id) then clearTimer s.timers id else s.timers
      | none => s.timers
    let s1 := { s with timers := timers, calls := now :: s.calls }
    if raises then s1 else { s1 with last := now }
  else if !timeoutSet s.timeout then
    { s with
      timeout := some s.nextId
      timers := ⟨s.nextId, now + doubleOfInt (s.wait - doubleOfInt (now - s.last))⟩ :: s.timers
      nextId := s.nextId + 1
      created := s.created + 1 }
  else s

/-- The host runs the callback of the pending timer `id` (lines 28-30) when
`Date.now()` is `now`; a handle that is not pending has no callback to run.
The assignments `last = Date.now()` and `timeout = null` follow the call of
`fn` and are skipped when `fn` raises. -/
def Throttle.fire (s : Throttle) (id : Nat) (now : Int) (raises : Bool) : Throttle :=
  if s.timers.any (fun t => t.id == id) then
    let s1 := { s with timers := clearTimer s.timers id, calls := now :: s.calls }
    if raises then s1 else { s1 with last := now, timeout := none }
  else s

/-- What can happen to a wrapper: it is invoked, or one of its timers fires;
each with the clock value and with the outcome of `fn` in case the event
runs it. -/
inductive ThrottleEvent where
  | invoke (now : Int) (raises : Bool)
  | fire (id : Nat) (now : Int) (raises : Bool)
  deriving DecidableEq, Repr

/-- Clock value of an event. -/
def ThrottleEvent.time : ThrottleEvent → Int
  | .invoke now _ => now
  | .fire _ now _ => now

/-- Whether `fn` raises if the event runs it. -/
def ThrottleEvent.raises : ThrottleEvent → Bool
  | .invoke _ r => r
  | .fire _ _ r => r

/-- Effect of one event. -/
def Throttle.step (s : Throttle) : ThrottleEvent → Throttle
  | .invoke now r => s.invoke now r
  | .fire id now r => s.fire id now r

/-- Effect of a sequence of events. -/
def Throttle.run (s : Throttle) : List ThrottleEvent → Throttle
  | [] => s
  | e :: es => (s.step e).run es

/-- The largest time value of ECMAScript, 100 000 000 days in milliseconds;
`Date.now()` yields no larger number. -/
def maxTimeValue : Int :=
  8640000000000000

/-- Environment assumptions on a sequence of events that starts when the
clock shows `clock`: the readings of `Date.now()` are positive time values
and never go backwards, and a timer fires only while pending and not before
its due time. -/
def admissible (s : Throttle) (clock : Int) : List ThrottleEvent → Bool
  | [] => true
  | e :: es =>
    decide (0 < e.time) && decide (clock ≤ e.time) && decide (e.time ≤ maxTimeValue) &&
    (match e with
     | .invoke _ _ => true
     | .fire id now _ => s.timers.any (fun t => t.id == id && decide (t.due ≤ now))) &&
    admissible (s.step e) e.time es

/-- Whether `fn` returns normally in every event of the sequence. -/
def returnsNormally (es : List ThrottleEvent) : Bool :=
  es.all (fun e => !e.raises)

/-- Invariant of a wrapper created with `leading = true` under the
assumptions of `admissible` while `fn` returns normally: `last` is the time
of the latest run of `fn` (zero before the first run), successive runs are at
least `wait` apart, and every pending timer is the one the variable `timeout`
refers to and is due no earlier than `wait` after the latest run, or later
than the clock can get. -/
def Throttle.Inv (s : Throttle) : Prop :=
  s.leading = true ∧ 1 ≤ s.nextId ∧ s.last ≤ maxTimeValue ∧
  ((s.calls = [] ∧ s.last = 0 ∧ s.timers = []) ∨ (∃ rest, s.calls = s.last :: rest ∧ 0 < s.last)) ∧
  List.Chain' (fun later earlier => earlier + s.wait ≤ later) s.calls ∧
  (∀ t ∈ s.timers, s.timeout = some t.id ∧ t.id ≠ 0 ∧
    (s.last + s.wait ≤ t.due ∨ maxTimeValue < t.due)) ∧
  (∀ id, s.timeout = some id → id ≠ 0)

/-- State of a fresh wrapper after a first invocation at time `t0` in which
`fn` returned, and a positive number of further invocations that each found
`now - last < wait`: one run of `fn`, one pending timer. -/
def burstState (wait t0 due : Int) : Throttle :=
  ⟨wait, true, t0, some 1, [⟨1, due⟩], 2, [t0], 1⟩

/-! ## Section 8 of the script: the slideshow -/

/-- The method `classList.toggle(token, force)`. -/
def classListToggle (classes : List String) (token : String) (force : Bool) : List String :=
  if force then classListAdd classes token else classes.filter (fun c => c != token)

/-- A `.mySlides` element: inline `display` and class list. -/
structure Slide where
  display : String
  classes : List String
  deriving DecidableEq, Repr

/-- State of the slideshow: the slides, the class lists of the dots, and the
closure variables `slideIndex` and `slideTimer` (with the next free interval
handle of the host). -/
structure Slideshow where
  prefersReducedMotion : Bool
  slides : List Slide
  dots : List (List String)
  slideIndex : Int
  slideTimer : Option Nat
  nextTimerId : Nat
  deriving DecidableEq, Repr

/-- Line 302: `((n % slides.length) + slides.length) % slides.length`, with
the truncating remainder of ECMAScript.  The remainder of doubles is exact,
and so is the sum, whose magnitude stays below twice the array length. -/
def wrapIndex (n : Int) (len : Nat) : Int :=
  Int.tmod (Int.tmod n len + len) len

/-- The function `showSlide` (lines 300-308). -/
def showSlide (s : Slideshow) (n : Int) : Slideshow :=
  if s.slides.length = 0 then s
  else
    let idx := wrapIndex n s.slides.length
    { s with
      slideIndex := idx
      slides := s.slides.mapIdx fun i sl =>
        { display := if (i : Int) = idx then "block" else "none"
          classes := classListToggle sl.classes "active" (decide ((i : Int) = idx)) }
      dots := s.dots.mapIdx fun i d =>
        classListToggle d "active" (decide ((i : Int) = idx)) }

/-- Line 310.  The variable `slideIndex` is written by `showSlide` only, so
it holds an index below the array length, and the sum is exact. -/
def nextSlide (s : Slideshow) : Slideshow :=
  showSlide s (s.slideIndex + 1)

/-- Line 311.  The difference is exact for the same reason. -/
def prevSlide (s : Slideshow) : Slideshow :=
  showSlide s (s.slideIndex - 1)

/-- The function `stopSlides` (lines 319-322). -/
def stopSlides (s : Slideshow) : Slideshow :=
  { s with slideTimer := none }

/-- The function `startSlides` (lines 313-317). -/
def startSlides (s : Slideshow) : Slideshow :=
  if s.prefersReducedMotion then s
  else { s with slideTimer := some s.nextTimerId, nextTimerId := s.nextTimerId + 1 }

/-- The function `window.currentSlide` (lines 370-375), called with the
number `n`; the difference `n - 1` is computed in doubles. -/
def currentSlide (s : Slideshow) (n : Int) : Slideshow :=
  if s.slides.length = 0 then s
  else startSlides (stopSlides (showSlide s (doubleOfInt (n - 1))))

/-- Repeated `nextSlide`. -/
def nextSlides : Nat → Slideshow → Slideshow
  | 0, s => s
  | k + 1, s => nextSlides k (nextSlide s)

/-! ## Concrete pages -/

/-- A style value of 310 digits: a one followed by 309 zeros. -/
def hugeLevel : String :=
  "1000000000000000000000000000000000000000000000000000000000000000000000000000000000000000000000000000000000000000000000000000000000000000000000000000000000000000000000000000000000000000000000000000000000000000000000000000000000000000000000000000000000000000000000000000000000000000000000000000000000000000000000"

/-- Geometry in which every element tested lies inside the viewport. -/
def allInView : StartupGeometry :=
  ⟨fun _ => true, fun _ => true, fun _ => true⟩

/-- A page with three `.reveal` sections, the second being the about
section, visited with the reduced-motion preference. -/
def reducedAboutPage : Page :=
  { revealObserverSupported := true
    revealEls := [⟨["reveal"], "home"⟩, ⟨["reveal", "about-me"], "about"⟩,
      ⟨["reveal"], "projects"⟩]
    bars :=
      { prefersReducedMotion := true
        animateSkillBarsReady := false
        hasAnimatedSkills := false
        skillSpans := [{ className := "aws" }]
        skills := [⟨["skill"], some 0, some "", none⟩] } }

/-- A page with an about section and one skill whose span has the class
`aws`; no style sheet value for `--skill-level`; normal motion, observer
available. -/
def awsPage : Page :=
  { revealObserverSupported := true
    revealEls := [⟨["reveal", "about-me"], "about"⟩]
    bars :=
      { prefersReducedMotion := false
        animateSkillBarsReady := false
        hasAnimatedSkills := false
        skillSpans := [{ className := "aws" }]
        skills := [⟨["skill"], some 0, some "", none⟩] } }

/-- A run on `awsPage`: the script is evaluated with the skill inside the
viewport, forty frames pass, the observer reports the about section, forty
more frames pass. -/
def awsRun : Page :=
  let p1 := (startup allInView awsPage).state
  let p2 := { p1 with bars := p1.bars.frames 40 }
  let p3 := (observerCallback [(0, true)] p2).state
  { p3 with bars := p3.bars.frames 40 }

/-- The same skill on a page without an about section, visited with the
reduced-motion preference. -/
def reducedAwsPage : Page :=
  { revealObserverSupported := true
    revealEls := [⟨["reveal"], "home"⟩]
    bars :=
      { prefersReducedMotion := true
        animateSkillBarsReady := false
        hasAnimatedSkills := false
        skillSpans := [{ className := "aws" }]
        skills := [⟨["skill"], some 0, some "", none⟩] } }

/-- A run on `reducedAwsPage`: the script is evaluated with the skill inside
the viewport, forty frames pass, the load-time check runs with the span
inside the viewport, forty more frames pass. -/
def reducedAwsRun : SkillBars :=
  let b1 := (startup allInView reducedAwsPage).state.bars
  let b2 := b1.frames 40
  let b3 := (loadCheck (fun _ => true) b2).state
  b3.frames 40

/-- The page `reducedAwsPage` with a style sheet that gives the span the
level `75%`, so that the counter starts with the target of the table. -/
def reducedStyledPage : Page :=
  { reducedAwsPage with
    bars := { reducedAwsPage.bars with skillSpans := [{ className := "aws", cssLevel := "75%" }] } }

/-- The page `reducedAboutPage` without the reduced-motion preference, on a
host without IntersectionObserver: the fallback path. -/
def fallbackAboutPage : Page :=
  { revealObserverSupported := false
    revealEls := [⟨["reveal"], "home"⟩, ⟨["reveal", "about-me"], "about"⟩,
      ⟨["reveal"], "projects"⟩]
    bars :=
      { prefersReducedMotion := false
        animateSkillBarsReady := false
        hasAnimatedSkills := false
        skillSpans := [{ className := "aws" }]
        skills := [⟨["skill"], some 0, some "", none⟩] } }

/-- A page whose about section carries `is-visible` in the markup, on a host
without IntersectionObserver, in the state reached right before the initial
check. -/
def premarkedPage : Page :=
  { revealObserverSupported := false
    revealEls := [⟨["reveal", "is-visible", "about-me"], "about"⟩]
    bars :=
      { prefersReducedMotion := false
        animateSkillBarsReady := true
        hasAnimatedSkills := false
        skillSpans := [{ className := "aws" }]
        skills := [] } }

/-- Skill-bar state after the script has been evaluated on a page with two
spans, `aws` and `rust`, before any trigger. -/
def twoSpanBars : SkillBars :=
  { prefersReducedMotion := false
    animateSkillBarsReady := true
    hasAnimatedSkills := false
    skillSpans := [{ className := "aws" }, { className := "rust" }]
    skills := [] }

/-- A sequence of triggers: the about section is revealed, the load-time
check finds both spans inside the viewport, another section is revealed. -/
def sampleTriggers : List SkillTrigger :=
  [.reveal ⟨["reveal", "about-me"], "about"⟩, .loadTimer (fun _ => true),
   .reveal ⟨["reveal"], "projects"⟩]

/-- A slideshow with three slides, the second one shown. -/
def threeSlides : Slideshow :=
  ⟨false, [⟨"none", []⟩, ⟨"block", ["active"]⟩, ⟨"none", []⟩], [[], ["active"], []], 1, none, 1⟩

/-! ## Properties of the number model -/

theorem roundAt_zero (a : Nat) : roundAt 0 a = a := by
  simp [roundAt, Nat.mod_one]

theorem roundAt_one_even (a : Nat) (h : a % 2 = 0) : roundAt 1 a = a := by
  simp only [roundAt, pow_one, h]
  simp
  omega

theorem roundNat_small (a : Nat) (h : a < 2 ^ 53) : roundNat a = a := by
  show roundNatFrom (970 + 1) 0 a = a
  rw [roundNatFrom, if_pos (by simpa using h), roundAt_zero]

theorem roundNat_even (a : Nat) (h : a ≤ 2 ^ 54) (hev : a % 2 = 0) : roundNat a = a := by
  by_cases h1 : a < 2 ^ 53
  · exact roundNat_small a h1
  · by_cases h2 : a < 2 ^ 54
    · show roundNatFrom (969 + 1 + 1) 0 a = a
      rw [roundNatFrom, if_neg (by simpa using h1), roundNatFrom, if_pos (by simpa using h2),
        roundAt_one_even a hev]
    · have : a = 2 ^ 54 := by omega
      subst this
      decide

theorem roundNatFrom_ge (fuel : Nat) :
    ∀ (e a : Nat), 2 ^ 53 ≤ a → (e = 0 ∨ 2 ^ (52 + e) ≤ a) → 2 ^ 53 ≤ roundNatFrom fuel e a := by
  have hround : ∀ (e a : Nat), 2 ^ 53 ≤ a → (e = 0 ∨ 2 ^ (52 + e) ≤ a) →
      2 ^ 53 ≤ roundAt e a := by
    intro e a ha he
    have hq : 2 ^ 53 ≤ a / 2 ^ e * 2 ^ e := by
      rcases Nat.eq_zero_or_pos e with h0 | h0
      · subst h0
        simpa using ha
      · have he2 : 2 ^ (52 + e) ≤ a := by
          rcases he with h | h
          · omega
          · exact h
        have h52 : 2 ^ 52 ≤ a / 2 ^ e := by
          rw [Nat.le_div_iff_mul_le (by positivity), ← pow_add]
          exact he2
        calc 2 ^ 53 ≤ 2 ^ (52 + e) := Nat.pow_le_pow_right (by norm_num) (by omega)
          _ = 2 ^ 52 * 2 ^ e := pow_add _ _ _
          _ ≤ a / 2 ^ e * 2 ^ e := Nat.mul_le_mul_right _ h52
    unfold roundAt
    simp only []
    split
    · calc 2 ^ 53 ≤ a / 2 ^ e * 2 ^ e := hq
        _ ≤ (a / 2 ^ e + 1) * 2 ^ e := Nat.mul_le_mul_right _ (Nat.le_succ _)
    · exact hq
  induction fuel with
  | zero => intro e a ha he; exact hround e a ha he
  | succ fuel ih =>
    intro e a ha he
    rw [roundNatFrom]
    split
    · exact hround e a ha he
    · rename_i hlt
      apply ih (e + 1) a ha
      right
      have : 2 ^ (53 + e) ≤ a := by omega
      simpa [show 52 + (e + 1) = 53 + e by omega] using this

/-- Integers of magnitude at most `2 ^ 53` are doubles. -/
theorem doubleOfInt_exact (x : Int) (h1 : -(2 ^ 53) ≤ x) (h2 : x ≤ 2 ^ 53) :
    doubleOfInt x = x := by
  have hr : roundNat x.natAbs = x.natAbs := by
    by_cases hs : x.natAbs < 2 ^ 53
    · exact roundNat_small _ hs
    · have : x.natAbs = 2 ^ 53 := by omega
      rw [this]
      decide
  unfold doubleOfInt
  rw [hr]
  split <;> omega

/-- Rounding does not take an integer from `2 ^ 53` on below `2 ^ 53`. -/
theorem doubleOfInt_ge (x : Int) (h : 2 ^ 53 ≤ x) : 2 ^ 53 ≤ doubleOfInt x := by
  have hn : 2 ^ 53 ≤ x.natAbs := by omega
  have := roundNatFrom_ge 971 0 x.natAbs hn (Or.inl rfl)
  unfold doubleOfInt roundNat
  rw [if_neg (by omega)]
  exact_mod_cast this

/-- Even integers from zero to `2 ^ 54` are doubles. -/
theorem ofInt_even (v : Int) (h0 : 0 ≤ v) (hle : v ≤ 2 ^ 54) (hev : v % 2 = 0) :
    JSNumber.ofInt v = .finite v := by
  have hr : roundNat v.natAbs = v.natAbs := roundNat_even _ (by omega) (by omega)
  unfold JSNumber.ofInt doubleOfInt
  rw [if_neg (by unfold doubleOverflow; omega), if_neg (by omega), hr]
  congr 1
  omega

/-! ## Properties of the label extraction and the table lookup -/

theorem head_jsSplitWsAux (cs cur : List Char) :
    (jsSplitWsAux cs false cur).head? =
      some (cur.reverse ++ cs.takeWhile (fun c => !isJSWhiteSpace c)) := by
  induction cs generalizing cur with
  | nil => simp [jsSplitWsAux]
  | cons c cs ih =>
    by_cases hc : isJSWhiteSpace c = true
    · simp [jsSplitWsAux, hc]
    · simp [jsSplitWsAux, hc, ih]

theorem takeWhile_jsTrimEnd (cs : List Char) :
    (jsTrimEnd cs).takeWhile (fun c => !isJSWhiteSpace c) =
      cs.takeWhile (fun c => !isJSWhiteSpace c) := by
  induction cs with
  | nil => simp [jsTrimEnd]
  | cons c cs ih =>
    by_cases hc : isJSWhiteSpace c = true
    · cases hr : jsTrimEnd cs <;> simp [jsTrimEnd, hr, hc]
    · cases hr : jsTrimEnd cs with
      | nil =>
        rw [hr] at ih
        simp [jsTrimEnd, hr, hc, ← ih]
      | cons r rs =>
        rw [hr] at ih
        simp [jsTrimEnd, hr, hc, ← ih]

/-- The label is the first white-space-delimited token of the class string,
and the empty string when the class string holds no token. -/
theorem skillLabel_eq_first_token (className : String) :
    skillLabel className =
      String.mk ((className.data.dropWhile isJSWhiteSpace).takeWhile
        (fun c => !isJSWhiteSpace c)) := by
  have h := head_jsSplitWsAux (jsTrim className.data) []
  unfold skillLabel jsSplitWs
  cases hs : jsSplitWsAux (jsTrim className.data) false [] with
  | nil => rw [hs] at h; simp at h
  | cons piece rest =>
    rw [hs] at h
    simp only [List.head?_cons, Option.some.injEq, List.reverse_nil, List.nil_append] at h
    simp only [h, jsTrim, takeWhile_jsTrimEnd, jsTrimStart]

/-- For a label that is not the name of a property of `Object.prototype`,
the percentage is the table entry, or 40 when the table has none, and the
text written is that number followed by a percent sign. -/
theorem skillLevelText_of_plain_label (className : String)
    (hm : objectPrototypeMethods.lookup (skillLabel className) = none)
    (hp : skillLabel className ≠ "__proto__") :
    skillPct className = .number ((skillPercentOwn.lookup (skillLabel className)).getD 40) ∧
    skillLevelText className =
      toString ((skillPercentOwn.lookup (skillLabel className)).getD 40) ++ "%" := by
  have key : skillPct className =
      .number ((skillPercentOwn.lookup (skillLabel className)).getD 40) := by
    unfold skillPct skillPercent
    cases ho : skillPercentOwn.lookup (skillLabel className) with
    | some n =>
      have hn : n ≠ 0 := by
        intro h0
        subst h0
        simp [skillPercentOwn, List.lookup] at ho
        repeat (split at ho <;> try simp at ho)
      simp [JSValue.orElse, JSValue.truthy, hn]
    | none =>
      simp [hm, hp, JSValue.orElse, JSValue.truthy]
  exact ⟨key, by simp [skillLevelText, key, JSValue.toJSString]⟩

/-- C1, failing input.  For the class string `constructor` the label is
`constructor`, which is not a key of the table; the lookup nevertheless finds
the function inherited from `Object.prototype`, so the percentage is not 40
and the text written to `--skill-level` and `data-pct` is the source text of
a function followed by a percent sign instead of `40%`.  The label
`__proto__` yields `[object Object]%` in the same way. -/
theorem skillLevel_inherited_label :
    skillLabel "constructor" = "constructor" ∧
    skillPercentOwn.lookup "constructor" = none ∧
    skillPct "constructor" = .builtinFunction "Object" ∧
    (processSpan false 0 { className := "constructor" }).1.skillLevel =
      some "function Object() \x7b [native code] \x7d%" ∧
    (processSpan false 0 { className := "constructor" }).1.dataPct =
      some "function Object() \x7b [native code] \x7d%" ∧
    skillLevelText "constructor" ≠ "40%" ∧
    skillLevelText "__proto__" = "[object Object]%" ∧
    skillLevelText "aws" = "75%" ∧
    skillLevelText "rust" = "40%" := by
  decide

/-! ## Class lists -/

theorem mem_classListAdd (classes : List String) (token : String) :
    token ∈ classListAdd classes token := by
  unfold classListAdd
  split
  · rename_i hc
    simpa using hc
  · simp

theorem classListAdd_of_contains (classes : List String) (token : String)
    (h : classes.contains token = true) : classListAdd classes token = classes := by
  unfold classListAdd
  rw [if_pos h]

theorem contains_classListAdd (classes : List String) (token : String) :
    (classListAdd classes token).contains token = true := by
  simpa using mem_classListAdd classes token

theorem mem_classListAdd_of_mem (classes : List String) (token c : String)
    (h : c ∈ classes) : c ∈ classListAdd classes token := by
  unfold classListAdd
  split
  · exact h
  · exact List.mem_append_left _ h

theorem classListToggle_mem_iff (classes : List String) (force : Bool) :
    "active" ∈ classListToggle classes "active" force ↔ force = true := by
  unfold classListToggle
  cases force
  · simp
  · simp [mem_classListAdd]

/-! ## Properties of `animateSkillBars` -/

theorem processSpan_marked (reduced : Bool) (i : Nat) (span : Span)
    (h : span.animated = some "1") : processSpan reduced i span = (span, []) := by
  simp [processSpan, h]

theorem processSpan_marks (reduced : Bool) (i : Nat) (span : Span) :
    (processSpan reduced i span).1.animated = some "1" := by
  unfold processSpan
  split
  · assumption
  · rfl

theorem processSpan_writes_span (reduced : Bool) (i : Nat) (span : Span) :
    ∀ w ∈ (processSpan reduced i span).2, w.span = i := by
  unfold processSpan
  split
  · simp
  · intro w hw
    simp only [List.mem_cons, List.mem_singleton, List.not_mem_nil, or_false] at hw
    rcases hw with rfl | rfl | rfl | rfl
    · rfl
    · split <;> rfl
    · rfl
    · rfl

theorem processSpans_length (reduced : Bool) (spans : List Span) :
    ∀ i, (processSpans reduced i spans).1.length = spans.length := by
  induction spans with
  | nil => intro i; rfl
  | cons sp rest ih => intro i; simp [processSpans, ih]

theorem processSpans_marks (reduced : Bool) (spans : List Span) :
    ∀ i, ∀ sp ∈ (processSpans reduced i spans).1, sp.animated = some "1" := by
  induction spans with
  | nil => intro i sp h; simp [processSpans] at h
  | cons s rest ih =>
    intro i sp h
    simp only [processSpans, List.mem_cons] at h
    rcases h with rfl | h
    · exact processSpan_marks _ _ _
    · exact ih _ _ h

theorem processSpans_get (reduced : Bool) (spans : List Span) :
    ∀ i k, (processSpans reduced i spans).1.get? k =
      (spans.get? k).map (fun sp => (processSpan reduced (i + k) sp).1) := by
  induction spans with
  | nil => intro i k; simp [processSpans]
  | cons s rest ih =>
    intro i k
    cases k with
    | zero => simp [processSpans]
    | succ k =>
      simp only [processSpans, List.get?_cons_succ, ih]
      congr 2
      funext sp
      congr 2
      omega

theorem processSpans_writes (reduced : Bool) (spans : List Span) :
    ∀ i k, (processSpans reduced i spans).2.filter (fun w => w.span == i + k) =
      match spans.get? k with
      | some sp => (processSpan reduced (i + k) sp).2
      | none => [] := by
  induction spans with
  | nil => intro i k; simp [processSpans]
  | cons s rest ih =>
    intro i k
    simp only [processSpans, List.filter_append]
    cases k with
    | zero =>
      have h1 : (processSpan reduced i s).2.filter (fun w => w.span == i + 0)
          = (processSpan reduced i s).2 := by
        apply List.filter_eq_self.mpr
        intro w hw
        simp [processSpan_writes_span reduced i s w hw]
      have h2 : (processSpans reduced (i + 1) rest).2.filter (fun w => w.span == i + 0) = [] := by
        apply List.filter_eq_nil_iff.mpr
        intro w hw
        have hge : ∀ (l : List Span) (j : Nat), ∀ w ∈ (processSpans reduced j l).2, j ≤ w.span := by
          intro l
          induction l with
          | nil => intro j w hw; simp [processSpans] at hw
          | cons a l ihl =>
            intro j w hw
            simp only [processSpans, List.mem_append] at hw
            rcases hw with hw | hw
            · exact le_of_eq (processSpan_writes_span reduced j a w hw).symm
            · exact le_trans (Nat.le_succ j) (ihl (j + 1) w hw)
        have := hge rest (i + 1) w hw
        simp
        omega
      rw [h1, h2]
      simp
    | succ k =>
      have h1 : (processSpan reduced i s).2.filter (fun w => w.span == i + (k + 1)) = [] := by
        apply List.filter_eq_nil_iff.mpr
        intro w hw
        have := processSpan_writes_span reduced i s w hw
        simp
        omega
      have h2 := ih (i + 1) k
      have hidx : i + 1 + k = i + (k + 1) := by omega
      rw [hidx] at h2
      rw [h1, h2]
      simp

theorem animateSkillBars_latched (b : SkillBars) (h : b.hasAnimatedSkills = true) :
    animateSkillBars b = b := by
  simp [animateSkillBars, h]

theorem animateSkillBars_sets_latch (b : SkillBars) :
    (animateSkillBars b).hasAnimatedSkills = true := by
  unfold animateSkillBars
  split
  · assumption
  · rfl

theorem animateSkillBars_idem (b : SkillBars) :
    animateSkillBars (animateSkillBars b) = animateSkillBars b :=
  animateSkillBars_latched _ (animateSkillBars_sets_latch b)

theorem animateSkillBars_ready (b : SkillBars) :
    (animateSkillBars b).animateSkillBarsReady = b.animateSkillBarsReady := by
  unfold animateSkillBars
  split <;> rfl

theorem animateSkillBars_length (b : SkillBars) :
    (animateSkillBars b).skillSpans.length = b.skillSpans.length := by
  unfold animateSkillBars
  split
  · rfl
  · exact processSpans_length _ _ _

theorem loadCheckFrom_ready (inView : Nat → Bool) (n : Nat) :
    ∀ (i : Nat) (b : SkillBars), b.animateSkillBarsReady = true →
      loadCheckFrom inView i n b =
        .normal (if (List.range' i n).any inView then animateSkillBars b else b) := by
  induction n with
  | zero => intro i b _; simp [loadCheckFrom]
  | succ n ih =>
    intro i b hb
    by_cases hi : inView i = true
    · have hr : (animateSkillBars b).animateSkillBarsReady = true := by
        rw [animateSkillBars_ready, hb]
      simp only [loadCheckFrom, hi, if_true, callAnimateSkillBars, hb, ih _ _ hr,
        animateSkillBars_idem, ite_self, List.range', List.any_cons, Bool.true_or]
    · simp only [loadCheckFrom, hi, Bool.false_eq_true, if_false, ih _ _ hb, List.range',
        List.any_cons, Bool.false_or]

theorem revealOn_ready (el : RevealEl) (b : SkillBars)
    (hb : b.animateSkillBarsReady = true) :
    revealOn el b =
      .normal ({ el with classes := classListAdd el.classes "is-visible" },
        if ({ el with classes := classListAdd el.classes "is-visible" } : RevealEl).isAbout
        then animateSkillBars b else b) := by
  unfold revealOn
  by_cases ha : ({ el with classes := classListAdd el.classes "is-visible" } : RevealEl).isAbout
      = true
  · simp only [ha, if_true, callAnimateSkillBars, hb]
  · simp only [ha, Bool.false_eq_true, if_false]

theorem trigger_run_ready (t : SkillTrigger) (b : SkillBars)
    (hb : b.animateSkillBarsReady = true) :
    t.run b = .normal (if t.calls b.skillSpans.length then animateSkillBars b else b) := by
  cases t with
  | reveal el =>
    simp only [SkillTrigger.run, revealOn_ready el b hb, SkillTrigger.calls]
  | loadTimer inView =>
    simp only [SkillTrigger.run, loadCheck, loadCheckFrom_ready inView _ 0 b hb,
      SkillTrigger.calls, List.range_eq_range']

theorem runTriggers_ready (ts : List SkillTrigger) :
    ∀ (b : SkillBars), b.animateSkillBarsReady = true →
      runTriggers ts b =
        if ts.any (SkillTrigger.calls b.skillSpans.length) then animateSkillBars b else b := by
  induction ts with
  | nil => intro b _; simp [runTriggers]
  | cons t ts ih =>
    intro b hb
    rw [runTriggers, trigger_run_ready t b hb]
    by_cases ht : t.calls b.skillSpans.length = true
    · have hr : (animateSkillBars b).animateSkillBarsReady = true := by
        rw [animateSkillBars_ready, hb]
      simp only [ht, if_true, Completion.state, ih _ hr, animateSkillBars_idem, ite_self,
        List.any_cons, Bool.true_or]
    · simp only [ht, Bool.false_eq_true, if_false, Completion.state, ih _ hb, List.any_cons,
        Bool.false_or]

/-- The latch once line 137 has been evaluated: whatever the sequence of triggers
(`revealOn` on any element, the load-time check with any geometry): the whole
run has the effect of a single call of `animateSkillBars` when some trigger
reaches a call, and no effect otherwise.  The first call sets the latch and
marks every span; on each span that was not yet marked it performs exactly
the writes of one pass; a call with the latch set changes nothing, the log of
writes included; a span already marked `data-animated = 1` is left as it is
and receives no write. -/
theorem animateSkillBars_once (b : SkillBars) (ts : List SkillTrigger)
    (hb : b.animateSkillBarsReady = true) :
    runTriggers ts b =
      (if ts.any (SkillTrigger.calls b.skillSpans.length) then animateSkillBars b else b) ∧
    (animateSkillBars b).hasAnimatedSkills = true ∧
    animateSkillBars (animateSkillBars b) = animateSkillBars b ∧
    (b.hasAnimatedSkills = true → animateSkillBars b = b) ∧
    (b.hasAnimatedSkills = false →
      (∀ sp ∈ (animateSkillBars b).skillSpans, sp.animated = some "1") ∧
      ∃ ws, (animateSkillBars b).writes = b.writes ++ ws ∧
        ∀ (i : Nat) (sp : Span), b.skillSpans.get? i = some sp →
          (animateSkillBars b).skillSpans.get? i
            = some (processSpan b.prefersReducedMotion i sp).1 ∧
          ws.filter (fun w => w.span == i) = (processSpan b.prefersReducedMotion i sp).2) ∧
    (∀ (i : Nat) (sp : Span), b.skillSpans.get? i = some sp → sp.animated = some "1" →
      (animateSkillBars b).skillSpans.get? i = some sp ∧
      ∃ ws, (animateSkillBars b).writes = b.writes ++ ws ∧ ∀ w ∈ ws, w.span ≠ i) := by
  refine ⟨runTriggers_ready ts b hb, animateSkillBars_sets_latch b, animateSkillBars_idem b,
    animateSkillBars_latched b, ?_, ?_⟩
  · intro hl
    have hspans : (animateSkillBars b).skillSpans
        = (processSpans b.prefersReducedMotion 0 b.skillSpans).1 := by
      simp [animateSkillBars, hl]
    have hwrites : (animateSkillBars b).writes
        = b.writes ++ (processSpans b.prefersReducedMotion 0 b.skillSpans).2 := by
      simp [animateSkillBars, hl]
    refine ⟨?_, _, hwrites, ?_⟩
    · rw [hspans]
      exact processSpans_marks _ _ 0
    · intro i sp hsp
      constructor
      · rw [hspans, processSpans_get, hsp]
        simp
      · have := processSpans_writes b.prefersReducedMotion b.skillSpans 0 i
        rw [hsp] at this
        simpa using this
  · intro i sp hsp hmarked
    by_cases hl : b.hasAnimatedSkills = true
    · rw [animateSkillBars_latched b hl]
      exact ⟨hsp, [], by simp, by simp⟩
    · have hl2 : b.hasAnimatedSkills = false := by simpa using hl
      have hspans : (animateSkillBars b).skillSpans
          = (processSpans b.prefersReducedMotion 0 b.skillSpans).1 := by
        simp [animateSkillBars, hl2]
      have hwrites : (animateSkillBars b).writes
          = b.writes ++ (processSpans b.prefersReducedMotion 0 b.skillSpans).2 := by
        simp [animateSkillBars, hl2]
      refine ⟨?_, _, hwrites, ?_⟩
      · rw [hspans, processSpans_get, hsp]
        simp [processSpan_marked _ _ _ hmarked]
      · intro w hw heq
        have hf := processSpans_writes b.prefersReducedMotion b.skillSpans 0 i
        simp only [hsp, Nat.zero_add, processSpan_marked _ _ _ hmarked] at hf
        have hmem : w ∈ (processSpans b.prefersReducedMotion 0 b.skillSpans).2.filter
            (fun w => w.span == 0 + i) := by
          rw [List.mem_filter]
          exact ⟨hw, by simp [heq]⟩
        rw [Nat.zero_add, hf] at hmem
        simp at hmem

/-! ## Properties of the reveal checks -/

theorem revealOn_visible (el : RevealEl) (b : SkillBars) :
    (revealOn el b).state.1.isVisible = true ∧
    (∀ c ∈ el.classes, c ∈ (revealOn el b).state.1.classes) := by
  have hstate : (revealOn el b).state.1
      = { el with classes := classListAdd el.classes "is-visible" } := by
    unfold revealOn callAnimateSkillBars
    by_cases ha : ({ el with classes := classListAdd el.classes "is-visible" } :
        RevealEl).isAbout = true <;>
      by_cases hb : b.animateSkillBarsReady = true <;>
      simp [ha, hb, Completion.state]
  rw [hstate]
  exact ⟨contains_classListAdd _ _, fun c hc => mem_classListAdd_of_mem _ _ _ hc⟩

theorem revealOn_of_visible (el : RevealEl) (b : SkillBars) (hv : el.isVisible = true)
    (hb : b.animateSkillBarsReady = true) :
    revealOn el b = .normal (el, if el.isAbout then animateSkillBars b else b) := by
  have hcls : classListAdd el.classes "is-visible" = el.classes :=
    classListAdd_of_contains _ _ hv
  rw [revealOn_ready el b hb, hcls]

theorem checkRevealEl_of_visible (inView : Nat → Bool) (i : Nat) (el : RevealEl)
    (b : SkillBars) (hv : el.isVisible = true) :
    checkRevealEl inView i el b = .normal (el, b) := by
  simp [checkRevealEl, hv]

theorem checkReveal_pass (inView : Nat → Bool) (els : List RevealEl) :
    ∀ (i : Nat) (b : SkillBars), b.animateSkillBarsReady = true →
      ∃ els1 b1, forEachReveal (checkRevealEl inView) i els b = .normal (els1, b1) ∧
        b1.animateSkillBarsReady = true ∧
        forEachReveal (checkRevealEl inView) i els1 b1 = .normal (els1, b1) := by
  induction els with
  | nil => intro i b hb; exact ⟨[], b, rfl, hb, rfl⟩
  | cons el rest ih =>
    intro i b hb
    by_cases hv : el.isVisible = true
    · obtain ⟨rest1, b1, h1, hr1, h2⟩ := ih (i + 1) b hb
      refine ⟨el :: rest1, b1, ?_, hr1, ?_⟩
      · simp only [forEachReveal, checkRevealEl_of_visible inView i el b hv, h1]
      · simp only [forEachReveal, checkRevealEl_of_visible inView i el b1 hv, h2]
    · by_cases hin : inView i = true
      · have hstep : checkRevealEl inView i el b = revealOn el b := by
          simp [checkRevealEl, hv, hin]
        have hr : (if ({ el with classes := classListAdd el.classes "is-visible" } :
            RevealEl).isAbout then animateSkillBars b else b).animateSkillBarsReady = true := by
          split
          · rw [animateSkillBars_ready, hb]
          · exact hb
        obtain ⟨rest1, b1, h1, hr1, h2⟩ := ih (i + 1) _ hr
        have hvis : ({ el with classes := classListAdd el.classes "is-visible" } :
            RevealEl).isVisible = true := contains_classListAdd _ _
        refine ⟨({ el with classes := classListAdd el.classes "is-visible" } : RevealEl) :: rest1,
          b1, ?_, hr1, ?_⟩
        · simp only [forEachReveal, hstep, revealOn_ready el b hb, h1]
        · simp only [forEachReveal, checkRevealEl_of_visible inView i _ b1 hvis, h2]
      · have hstep : ∀ b0, checkRevealEl inView i el b0 = .normal (el, b0) := by
          intro b0
          simp [checkRevealEl, hv, hin]
        obtain ⟨rest1, b1, h1, hr1, h2⟩ := ih (i + 1) b hb
        refine ⟨el :: rest1, b1, ?_, hr1, ?_⟩
        · simp only [forEachReveal, hstep, h1]
        · simp only [forEachReveal, hstep, h2]

theorem initialCheck_pass (inView : Nat → Bool) (els : List RevealEl) :
    ∀ (i : Nat) (b : SkillBars), b.animateSkillBarsReady = true →
      ∃ els1 b1, forEachReveal (initialCheckEl inView) i els b = .normal (els1, b1) ∧
        b1.animateSkillBarsReady = true ∧
        (b.hasAnimatedSkills = true → b1 = b) ∧
        forEachReveal (initialCheckEl inView) i els1 b1 = .normal (els1, b1) := by
  induction els with
  | nil => intro i b hb; exact ⟨[], b, rfl, hb, fun _ => rfl, rfl⟩
  | cons el rest ih =>
    intro i b hb
    by_cases hin : inView i = true
    · have hr : (if ({ el with classes := classListAdd el.classes "is-visible" } :
          RevealEl).isAbout then animateSkillBars b else b).animateSkillBarsReady = true := by
        split
        · rw [animateSkillBars_ready, hb]
        · exact hb
      obtain ⟨rest1, b1, h1, hr1, hl1, h2⟩ := ih (i + 1) _ hr
      have hvis : ({ el with classes := classListAdd el.classes "is-visible" } :
          RevealEl).isVisible = true := contains_classListAdd _ _
      refine ⟨({ el with classes := classListAdd el.classes "is-visible" } : RevealEl) :: rest1,
        b1, ?_, hr1, ?_, ?_⟩
      · simp only [forEachReveal, initialCheckEl, hin, if_true, revealOn_ready el b hb, h1]
      · intro hl
        have hsame : (if ({ el with classes := classListAdd el.classes "is-visible" } :
            RevealEl).isAbout then animateSkillBars b else b) = b := by
          split
          · exact animateSkillBars_latched b hl
          · rfl
        rw [hsame] at hl1
        exact hl1 hl
      · have hsecond : revealOn ({ el with classes := classListAdd el.classes "is-visible" } :
            RevealEl) b1 = .normal
              (({ el with classes := classListAdd el.classes "is-visible" } : RevealEl), b1) := by
          rw [revealOn_of_visible _ b1 hvis hr1]
          by_cases ha : ({ el with classes := classListAdd el.classes "is-visible" } :
              RevealEl).isAbout = true
          · have hb1 : b1 = animateSkillBars b := by
              have := hl1 (by simp only [ha, if_true]; exact animateSkillBars_sets_latch b)
              simpa only [ha, if_true] using this
            simp only [ha, if_true, hb1, animateSkillBars_idem]
          · simp only [ha, Bool.false_eq_true, if_false]
        simp only [forEachReveal, initialCheckEl, hin, if_true, hsecond, h2]
    · obtain ⟨rest1, b1, h1, hr1, hl1, h2⟩ := ih (i + 1) b hb
      refine ⟨el :: rest1, b1, ?_, hr1, hl1, ?_⟩
      · simp only [forEachReveal, initialCheckEl, hin, Bool.false_eq_true, if_false, h1]
      · simp only [forEachReveal, initialCheckEl, hin, Bool.false_eq_true, if_false, h2]

theorem checkReveal_idem (inView : Nat → Bool) (p : Page)
    (hp : p.bars.animateSkillBarsReady = true) :
    ∃ p1, checkReveal inView p = .normal p1 ∧ checkReveal inView p1 = .normal p1 := by
  obtain ⟨els1, b1, h1, _, h2⟩ := checkReveal_pass inView p.revealEls 0 p.bars hp
  refine ⟨{ p with revealEls := els1, bars := b1 }, ?_, ?_⟩
  · simp only [checkReveal, h1, Page.withReveal]
  · simp only [checkReveal, h2, Page.withReveal]

theorem initialCheck_idem (inView : Nat → Bool) (p : Page)
    (hp : p.bars.animateSkillBarsReady = true) :
    ∃ p1, initialCheck inView p = .normal p1 ∧ initialCheck inView p1 = .normal p1 := by
  obtain ⟨els1, b1, h1, _, _, h2⟩ := initialCheck_pass inView p.revealEls 0 p.bars hp
  refine ⟨{ p with revealEls := els1, bars := b1 }, ?_, ?_⟩
  · simp only [initialCheck, h1, Page.withReveal]
  · simp only [initialCheck, h2, Page.withReveal]

/-- Every loop over the `.reveal` elements keeps each class of each element,
whatever the callback does to the shared state, provided the callback keeps
the classes of its element. -/
theorem forEachReveal_keeps_classes
    (f : Nat → RevealEl → SkillBars → Completion (RevealEl × SkillBars))
    (hf : ∀ i el b, ∀ c ∈ el.classes, c ∈ (f i el b).state.1.classes)
    (els : List RevealEl) :
    ∀ (i : Nat) (b : SkillBars),
      List.Forall₂ (fun el el1 => ∀ c ∈ el.classes, c ∈ el1.classes) els
        (forEachReveal f i els b).state.1 := by
  induction els with
  | nil => intro i b; simp [forEachReveal, Completion.state]
  | cons el rest ih =>
    intro i b
    have hhead := hf i el b
    cases hfi : f i el b with
    | normal r =>
      obtain ⟨el1, b1⟩ := r
      rw [hfi] at hhead
      have hrest := ih (i + 1) b1
      cases hrec : forEachReveal f (i + 1) rest b1 with
      | normal r2 =>
        obtain ⟨rest1, b2⟩ := r2
        rw [hrec] at hrest
        simp only [forEachReveal, hfi, hrec, Completion.state]
        exact List.Forall₂.cons hhead hrest
      | throw e r2 =>
        obtain ⟨rest1, b2⟩ := r2
        rw [hrec] at hrest
        simp only [forEachReveal, hfi, hrec, Completion.state]
        exact List.Forall₂.cons hhead hrest
    | throw e r =>
      obtain ⟨el1, b1⟩ := r
      rw [hfi] at hhead
      simp only [forEachReveal, hfi, Completion.state]
      refine List.Forall₂.cons hhead ?_
      exact List.forall₂_same.mpr (fun _ _ _ h => h)

theorem checkRevealEl_keeps_classes (inView : Nat → Bool) (i : Nat) (el : RevealEl)
    (b : SkillBars) : ∀ c ∈ el.classes, c ∈ (checkRevealEl inView i el b).state.1.classes := by
  unfold checkRevealEl
  split
  · exact fun _ h => h
  · split
    · exact (revealOn_visible el b).2
    · exact fun _ h => h

theorem initialCheckEl_keeps_classes (inView : Nat → Bool) (i : Nat) (el : RevealEl)
    (b : SkillBars) : ∀ c ∈ el.classes, c ∈ (initialCheckEl inView i el b).state.1.classes := by
  unfold initialCheckEl
  split
  · exact (revealOn_visible el b).2
  · exact fun _ h => h

/-- What holds of the checks.  For an element that already carries `is-visible`: the
callback of the fallback check `checkReveal` changes nothing at all; the
callback of the unguarded initial check leaves the element as it is, and
leaves the latch, the spans and the rest of the shared state as they are
whenever the element is not an about element or the latch is already set.
No operation on a `.reveal` element removes a class: `revealOn` and both
checks keep every class of every element and `revealOn` ends with
`is-visible` present, also when it raises.  Running either check a second
time with the same geometry leaves the state reached by the first run
unchanged. -/
theorem reveal_check_on_visible (inView : Nat → Bool) (i : Nat) (el : RevealEl)
    (b : SkillBars) (p : Page) (hv : el.isVisible = true) :
    checkRevealEl inView i el b = .normal (el, b) ∧
    (b.animateSkillBarsReady = true →
      (∃ b1, initialCheckEl inView i el b = .normal (el, b1)) ∧
      ((el.isAbout = false ∨ b.hasAnimatedSkills = true) →
        initialCheckEl inView i el b = .normal (el, b))) ∧
    (∀ (el0 : RevealEl) (b0 : SkillBars),
      (revealOn el0 b0).state.1.isVisible = true ∧
      (∀ c ∈ el0.classes, c ∈ (revealOn el0 b0).state.1.classes)) ∧
    List.Forall₂ (fun e0 e1 => ∀ c ∈ e0.classes, c ∈ e1.classes) p.revealEls
      (checkReveal inView p).state.revealEls ∧
    List.Forall₂ (fun e0 e1 => ∀ c ∈ e0.classes, c ∈ e1.classes) p.revealEls
      (initialCheck inView p).state.revealEls ∧
    (p.bars.animateSkillBarsReady = true →
      (∃ p1, checkReveal inView p = .normal p1 ∧ checkReveal inView p1 = .normal p1) ∧
      (∃ p1, initialCheck inView p = .normal p1 ∧ initialCheck inView p1 = .normal p1)) := by
  refine ⟨checkRevealEl_of_visible inView i el b hv, ?_, revealOn_visible, ?_, ?_, ?_⟩
  · intro hb
    constructor
    · by_cases hin : inView i = true
      · exact ⟨if el.isAbout then animateSkillBars b else b,
          by simp only [initialCheckEl, hin, if_true, revealOn_of_visible el b hv hb]⟩
      · exact ⟨b, by simp only [initialCheckEl, hin, Bool.false_eq_true, if_false]⟩
    · intro hcase
      by_cases hin : inView i = true
      · simp only [initialCheckEl, hin, if_true, revealOn_of_visible el b hv hb]
        rcases hcase with ha | hl
        · simp only [ha, Bool.false_eq_true, if_false]
        · simp only [animateSkillBars_latched b hl, ite_self]
      · simp only [initialCheckEl, hin, Bool.false_eq_true, if_false]
  · have := forEachReveal_keeps_classes (checkRevealEl inView)
      (checkRevealEl_keeps_classes inView) p.revealEls 0 p.bars
    unfold checkReveal Page.withReveal
    split <;> rename_i heq <;> rw [heq] at this <;> exact this
  · have := forEachReveal_keeps_classes (initialCheckEl inView)
      (initialCheckEl_keeps_classes inView) p.revealEls 0 p.bars
    unfold initialCheck Page.withReveal
    split <;> rename_i heq <;> rw [heq] at this <;> exact this
  · intro hp
    exact ⟨checkReveal_idem inView p hp, initialCheck_idem inView p hp⟩

/-! ## The reveal section before `animateSkillBars` is bound -/

theorem isAbout_classListAdd (el : RevealEl) :
    ({ el with classes := classListAdd el.classes "is-visible" } : RevealEl).isAbout
      = el.isAbout := by
  unfold RevealEl.isAbout classListAdd
  split
  · rfl
  · simp

/-- Before line 137 has been evaluated, `revealOn` raises exactly on the about
elements; in both outcomes the element has received `is-visible` and the
shared state is untouched. -/
theorem revealOn_before_binding (el : RevealEl) (b : SkillBars)
    (hb : b.animateSkillBarsReady = false) :
    revealOn el b =
      if el.isAbout then
        .throw (.referenceError "animateSkillBars")
          ({ el with classes := classListAdd el.classes "is-visible" }, b)
      else .normal ({ el with classes := classListAdd el.classes "is-visible" }, b) := by
  unfold revealOn callAnimateSkillBars
  simp only [isAbout_classListAdd, hb, Bool.false_eq_true, if_false]

/-- With the reduced-motion preference, evaluating the script raises as soon
as one `.reveal` element is an about element, whatever the rest of the
page. -/
theorem forEach_revealOn_raises (els : List RevealEl) :
    ∀ (i : Nat) (b : SkillBars), b.animateSkillBarsReady = false →
      els.any RevealEl.isAbout = true →
      (forEachReveal (fun _ el b => revealOn el b) i els b).threw = true := by
  induction els with
  | nil => intro i b _ h; simp at h
  | cons el rest ih =>
    intro i b hb hany
    by_cases ha : el.isAbout = true
    · simp only [forEachReveal, revealOn_before_binding el b hb, ha, if_true, Completion.threw]
    · have hrest : rest.any RevealEl.isAbout = true := by
        simpa [ha] using hany
      have := ih (i + 1) b hb hrest
      simp only [forEachReveal, revealOn_before_binding el b hb, ha, Bool.false_eq_true, if_false]
      cases hrec : forEachReveal (fun _ el b => revealOn el b) (i + 1) rest b with
      | normal r => rw [hrec] at this; simp [Completion.threw] at this
      | throw e r => rfl

/-- With the reduced-motion preference and no about element among the
`.reveal` elements, line 92 completes and every element is visible. -/
theorem forEach_revealOn_completes (els : List RevealEl) :
    ∀ (i : Nat) (b : SkillBars), b.animateSkillBarsReady = false →
      els.any RevealEl.isAbout = false →
      ∃ els1, forEachReveal (fun _ el b => revealOn el b) i els b = .normal (els1, b) ∧
        ∀ el ∈ els1, el.isVisible = true := by
  induction els with
  | nil => intro i b _ _; exact ⟨[], rfl, by simp⟩
  | cons el rest ih =>
    intro i b hb hany
    simp only [List.any_cons, Bool.or_eq_false_iff] at hany
    obtain ⟨els1, h1, h2⟩ := ih (i + 1) b hb hany.2
    refine ⟨({ el with classes := classListAdd el.classes "is-visible" } : RevealEl) :: els1,
      ?_, ?_⟩
    · simp only [forEachReveal, revealOn_before_binding el b hb, hany.1, Bool.false_eq_true,
        if_false, h1]
    · intro e he
      simp only [List.mem_cons] at he
      rcases he with rfl | he
      · exact contains_classListAdd _ _
      · exact h2 e he

/-- On a host without IntersectionObserver, when the first fallback check
(line 115) completes, it has left the shared state untouched and every
element it has changed is visible and is not an about element: an element
that the script itself has marked never makes the initial check call
`animateSkillBars`. -/
theorem firstCheck_marks_no_about (inView : Nat → Bool) (els : List RevealEl) :
    ∀ (i : Nat) (b : SkillBars) (els1 : List RevealEl) (b1 : SkillBars),
      b.animateSkillBarsReady = false →
      forEachReveal (checkRevealEl inView) i els b = .normal (els1, b1) →
      b1 = b ∧
      List.Forall₂ (fun e0 e1 => e1 = e0 ∨ (e1.isVisible = true ∧ e1.isAbout = false))
        els els1 := by
  induction els with
  | nil =>
    intro i b els1 b1 _ h
    simp only [forEachReveal, Completion.normal.injEq, Prod.mk.injEq] at h
    obtain ⟨rfl, rfl⟩ := h
    exact ⟨rfl, List.Forall₂.nil⟩
  | cons el rest ih =>
    intro i b els1 b1 hb h
    have hhead : checkRevealEl inView i el b = .normal (el, b) ∨
        (el.isAbout = false ∧ checkRevealEl inView i el b
          = .normal ({ el with classes := classListAdd el.classes "is-visible" }, b)) ∨
        (∃ e r, checkRevealEl inView i el b = .throw e r) := by
      unfold checkRevealEl
      by_cases hv : el.isVisible = true
      · simp [hv]
      · by_cases hin : inView i = true
        · simp only [hv, Bool.false_eq_true, if_false, hin, if_true,
            revealOn_before_binding el b hb]
          by_cases ha : el.isAbout = true
          · right; right
            exact ⟨.referenceError "animateSkillBars",
              ({ el with classes := classListAdd el.classes "is-visible" }, b),
              by simp only [ha, if_true]⟩
          · right; left
            exact ⟨by simpa using ha, by simp only [ha, Bool.false_eq_true, if_false]⟩
        · simp [hv, hin]
    rcases hhead with hh | ⟨ha, hh⟩ | ⟨e, r, hh⟩
    · simp only [forEachReveal, hh] at h
      cases hrec : forEachReveal (checkRevealEl inView) (i + 1) rest b with
      | normal r2 =>
        obtain ⟨rest1, b2⟩ := r2
        simp only [hrec, Completion.normal.injEq, Prod.mk.injEq] at h
        obtain ⟨rfl, rfl⟩ := h
        obtain ⟨hb2, hall⟩ := ih (i + 1) b rest1 b2 hb hrec
        exact ⟨hb2, List.Forall₂.cons (Or.inl rfl) hall⟩
      | throw e r2 =>
        obtain ⟨rest1, b2⟩ := r2
        simp [hrec] at h
    · simp only [forEachReveal, hh] at h
      cases hrec : forEachReveal (checkRevealEl inView) (i + 1) rest b with
      | normal r2 =>
        obtain ⟨rest1, b2⟩ := r2
        simp only [hrec, Completion.normal.injEq, Prod.mk.injEq] at h
        obtain ⟨rfl, rfl⟩ := h
        obtain ⟨hb2, hall⟩ := ih (i + 1) b rest1 b2 hb hrec
        refine ⟨hb2, List.Forall₂.cons (Or.inr ⟨contains_classListAdd _ _, ?_⟩) hall⟩
        rw [isAbout_classListAdd]
        exact ha
      | throw e r2 =>
        obtain ⟨rest1, b2⟩ := r2
        simp [hrec] at h
    · obtain ⟨el1, b2⟩ := r
      simp [forEachReveal, hh] at h

theorem revealAll_raises (p : Page) (hb : p.bars.animateSkillBarsReady = false)
    (ha : p.revealEls.any RevealEl.isAbout = true) : (revealAll p).threw = true := by
  have h := forEach_revealOn_raises p.revealEls 0 p.bars hb ha
  unfold revealAll Page.withReveal
  cases hrec : forEachReveal (fun _ el b => revealOn el b) 0 p.revealEls p.bars with
  | normal r =>
    rw [hrec] at h
    simp [Completion.threw] at h
  | throw e r => rfl

/-- With the reduced-motion preference, evaluating the script raises on every
page that has an about element among its `.reveal` elements. -/
theorem startup_reduced_raises (geo : StartupGeometry) (p : Page)
    (hr : p.bars.prefersReducedMotion = true)
    (ha : p.revealEls.any RevealEl.isAbout = true) :
    (startup geo p).threw = true := by
  have h := revealAll_raises
    { p with bars := { p.bars with animateSkillBarsReady := false, hasAnimatedSkills := false } }
    rfl ha
  have hsec : revealSection geo.firstCheck
      { p with bars := { p.bars with animateSkillBarsReady := false, hasAnimatedSkills := false } }
      = revealAll
      { p with bars := { p.bars with animateSkillBarsReady := false, hasAnimatedSkills := false } } := by
    unfold revealSection
    exact if_pos hr
  unfold startup
  rw [hsec]
  cases hrec : revealAll
      { p with bars := { p.bars with animateSkillBarsReady := false, hasAnimatedSkills := false } } with
  | normal r =>
    rw [hrec] at h
    simp [Completion.threw] at h
  | throw e r => rfl

/-! ## Properties of the percentage counter -/

theorem Counter.step_finite (c T : Int) (h0 : 0 ≤ c) (hc : c + 2 ≤ 2 ^ 54) (hev : c % 2 = 0) :
    Counter.step ⟨.finite c, .finite T⟩ =
      (⟨.finite (if T < c + 2 then T else c + 2), .finite T⟩,
        decide ((if T < c + 2 then T else c + 2) < T)) := by
  have hadd : JSNumber.ofInt (c + 2) = .finite (c + 2) :=
    ofInt_even (c + 2) (by omega) hc (by omega)
  unfold Counter.step JSNumber.addInt
  simp only [hadd, JSNumber.lt]
  by_cases h : T < c + 2
  · simp [h, JSNumber.lt]
  · simp [h, JSNumber.lt]

theorem chainTrace_run (T : Int) (hT : T ≤ 2 ^ 54) (m : Nat) :
    ∀ (c : Int), 0 ≤ c → c % 2 = 0 → c + 2 ≤ 2 ^ 54 →
      T ≤ c + 2 * ((m : Int) + 1) → (m = 0 ∨ c + 2 * (m : Int) < T) →
      ∀ fuel, m + 1 ≤ fuel →
        chainTrace fuel true ⟨.finite c, .finite T⟩ =
          ((List.range (m + 1)).map
            (fun (k : Nat) => JSNumber.finite (min (c + 2 * ((k : Int) + 1)) T)), false) := by
  induction m with
  | zero =>
    intro c h0 hev hc hTc _ fuel hfuel
    obtain ⟨f, rfl⟩ : ∃ f, fuel = f + 1 := ⟨fuel - 1, by omega⟩
    have hT2 : T ≤ c + 2 := by simpa using hTc
    have hcur : (if T < c + 2 then T else c + 2) = T := by
      split_ifs <;> omega
    have hmin : min (c + 2 * (((0 : Nat) : Int) + 1)) T = T := by
      apply min_eq_right
      simpa using hTc
    rw [chainTrace, Counter.step_finite c T h0 hc hev]
    simp only [hcur, lt_irrefl, decide_False, Bool.not_true, Bool.false_eq_true, if_false]
    rw [show List.range (0 + 1) = [0] from rfl, List.map_singleton, hmin]
  | succ m ih =>
    intro c h0 hev hc hTc hlow fuel hfuel
    obtain ⟨f, rfl⟩ : ∃ f, fuel = f + 1 := ⟨fuel - 1, by omega⟩
    have hlt : c + 2 * ((m : Int) + 1) < T := by
      rcases hlow with h | h
      · omega
      · push_cast at h
        exact h
    have hstep : ¬ (T < c + 2) := by omega
    have hagain : c + 2 < T := by omega
    have hrec := ih (c + 2) (by omega) (by omega) (by omega) (by push_cast at hTc ⊢; omega)
      (by
        by_cases hm : m = 0
        · exact Or.inl hm
        · right
          omega) f (by omega)
    rw [chainTrace, Counter.step_finite c T h0 hc hev]
    simp only [hstep, if_false, hagain, decide_True, Bool.not_true, Bool.false_eq_true, if_true,
      hrec]
    rw [List.range_succ_eq_map (m + 1), List.map_cons, List.map_map]
    have hmin : min (c + 2 * (((0 : Nat) : Int) + 1)) T = c + 2 := by
      apply min_eq_left
      simp
      omega
    rw [hmin]
    congr 2
    apply List.map_congr_left
    intro k _
    simp only [Function.comp, Nat.cast_succ]
    congr 2
    ring

theorem chainTrace_pending (T : Int) (hT : T ≤ 2 ^ 54) (fuel : Nat) :
    ∀ (c : Int), 0 ≤ c → c % 2 = 0 → (fuel = 0 ∨ c + 2 * (fuel : Int) < T) →
      (chainTrace fuel true ⟨.finite c, .finite T⟩).2 = true := by
  induction fuel with
  | zero => intro c _ _ _; rfl
  | succ f ih =>
    intro c h0 hev h
    have h1 : c + 2 * ((f : Int) + 1) < T := by
      rcases h with h | h
      · omega
      · push_cast at h
        exact h
    have hstep : ¬ (T < c + 2) := by omega
    have hagain : c + 2 < T := by omega
    rw [chainTrace, Counter.step_finite c T h0 (by omega) hev]
    simp only [hstep, if_false, hagain, decide_True, Bool.not_true, Bool.false_eq_true, if_true]
    exact ih (c + 2) (by omega) (by omega) (by
      by_cases hf : f = 0
      · exact Or.inl hf
      · right
        omega)

/-- The sum `current + 2` in doubles stays at `2 ^ 54` once `current` has got
there. -/
theorem addInt_two_bounded (c : Int) (h0 : 0 ≤ c) (hc : c ≤ 2 ^ 54) (hev : c % 2 = 0) :
    ∃ c1, (JSNumber.finite c).addInt 2 = .finite c1 ∧ 0 ≤ c1 ∧ c1 ≤ 2 ^ 54 ∧ c1 % 2 = 0 := by
  by_cases hlt : c + 2 ≤ 2 ^ 54
  · exact ⟨c + 2, ofInt_even (c + 2) (by omega) hlt (by omega), by omega, hlt, by omega⟩
  · have hc2 : c = 2 ^ 54 := by omega
    subst hc2
    exact ⟨2 ^ 54, by decide, by norm_num, le_refl _, by norm_num⟩

/-- For a target above `2 ^ 54`, finite or infinite, the callback asks for
another frame after every frame. -/
theorem chainTrace_stalls (tgt : JSNumber)
    (htgt : tgt = .posInf ∨ ∃ v, tgt = .finite v ∧ 2 ^ 54 < v) (fuel : Nat) :
    ∀ (c : Int), 0 ≤ c → c ≤ 2 ^ 54 → c % 2 = 0 →
      (chainTrace fuel true ⟨.finite c, tgt⟩).2 = true := by
  induction fuel with
  | zero => intro c _ _ _; rfl
  | succ f ih =>
    intro c h0 hc hev
    obtain ⟨c1, hadd, h10, h1c, h1ev⟩ := addInt_two_bounded c h0 hc hev
    have hstep : Counter.step ⟨.finite c, tgt⟩ = (⟨.finite c1, tgt⟩, true) := by
      unfold Counter.step
      simp only [hadd]
      rcases htgt with rfl | ⟨v, rfl, hv⟩
      · simp [JSNumber.lt]
      · have h1 : ¬ (v < c1) := by omega
        have h2 : c1 < v := by omega
        simp [JSNumber.lt, h1, h2]
    rw [chainTrace, hstep]
    simp only [Bool.not_true, Bool.false_eq_true, if_false, if_true]
    exact ih c1 h10 h1c h1ev

theorem counterTicks_bounds (T : Int) :
    T ≤ 2 * (counterTicks T : Int) ∧
      (counterTicks T = 1 ∨ 2 * (counterTicks T : Int) < T + 2) := by
  unfold counterTicks
  rcases le_or_lt ((T + 1) / 2).toNat 1 with h | h
  · rw [max_eq_left h]
    constructor
    · have := Int.toNat_of_nonneg (a := (T + 1) / 2)
      omega
    · exact Or.inl rfl
  · rw [max_eq_right (le_of_lt h)]
    have hpos : 0 ≤ (T + 1) / 2 := by omega
    have := Int.toNat_of_nonneg hpos
    constructor <;> [skip; right] <;> omega

/-- C3, as amended.  For every target `T` up to `2 ^ 54` and a skill that has
a `.percentage` element, the chain of `step` callbacks started by
`animateSkills` runs `counterTicks T` times and then schedules nothing
further (for `T ≥ 1` that is the ceiling of `T / 2`); the `k`-th value it
renders is `min (2 * k) T`; the rendered values never decrease, never exceed
`T`, and the last one is `T`.  For the target minus infinity the chain
renders the target in its only frame. -/
theorem counter_chain (T : Int) (hT : T ≤ 2 ^ 54) :
    (∀ fuel, counterTicks T ≤ fuel →
      chainTrace fuel true ⟨.finite 0, .finite T⟩
        = ((counterValues T).map JSNumber.finite, false)) ∧
    (∀ fuel, fuel < counterTicks T →
      (chainTrace fuel true ⟨.finite 0, .finite T⟩).2 = true) ∧
    (∀ k, k < counterTicks T → (counterValues T).get? k = some (min (2 * ((k : Int) + 1)) T)) ∧
    (counterValues T).length = counterTicks T ∧
    List.Chain' (fun a b => a ≤ b) (counterValues T) ∧
    (∀ v ∈ counterValues T, v ≤ T) ∧
    (counterValues T).getLast? = some T ∧
    (1 ≤ T → T ≤ 2 * (counterTicks T : Int) ∧ 2 * (counterTicks T : Int) < T + 2) ∧
    (∀ fuel, 1 ≤ fuel → chainTrace fuel true ⟨.finite 0, .negInf⟩ = ([.negInf], false)) := by
  obtain ⟨hup, hlow⟩ := counterTicks_bounds T
  have hpos : 1 ≤ counterTicks T := by unfold counterTicks; exact le_max_left _ _
  obtain ⟨m, hm⟩ : ∃ m, counterTicks T = m + 1 := ⟨counterTicks T - 1, by omega⟩
  refine ⟨?_, ?_, ?_, ?_, ?_, ?_, ?_, ?_, ?_⟩
  · intro fuel hfuel
    have := chainTrace_run T hT m 0 (le_refl _) (by norm_num) (by norm_num)
      (by rw [hm] at hup; push_cast at hup; omega)
      (by
        rcases hlow with h | h
        · left; omega
        · right; rw [hm] at h; push_cast at h; omega) fuel (by omega)
    rw [this]
    simp only [counterValues, hm, zero_add, List.map_map]
    rfl
  · intro fuel hfuel
    apply chainTrace_pending T hT fuel 0 (le_refl _) (by norm_num)
    rcases hlow with h | h
    · left; omega
    · right; omega
  · intro k hk
    simp [counterValues, List.get?_eq_getElem?, List.getElem?_map, List.getElem?_range hk]
  · simp [counterValues]
  · unfold counterValues
    rw [List.chain'_map]
    rw [hm, List.chain'_range_succ]
    intro k _
    apply min_le_min_right
    push_cast
    omega
  · intro v hv
    simp only [counterValues, List.mem_map] at hv
    obtain ⟨k, _, rfl⟩ := hv
    exact min_le_right _ _
  · unfold counterValues
    have hlast : min (2 * ((m : Int) + 1)) T = T := by
      apply min_eq_right
      rw [hm] at hup
      push_cast at hup
      omega
    rw [hm, List.range_succ, List.map_append, List.map_singleton, hlast]
    simp
  · intro hT1
    refine ⟨hup, ?_⟩
    rcases hlow with h | h
    · omega
    · exact h
  · intro fuel hfuel
    obtain ⟨f, rfl⟩ : ∃ f, fuel = f + 1 := ⟨fuel - 1, by omega⟩
    have hstep : Counter.step ⟨.finite 0, .negInf⟩ = (⟨.negInf, .negInf⟩, false) := by decide
    rw [chainTrace, hstep]
    rfl

/-- C3, witness: the target 75 of the skill table. -/
theorem counter_chain_witness :
    (75 : Int) ≤ 2 ^ 54 ∧
    chainTrace (counterTicks 75) true ⟨.finite 0, .finite 75⟩
      = ((counterValues 75).map JSNumber.finite, false) :=
  ⟨by norm_num, (counter_chain 75 (by norm_num)).1 _ (le_refl _)⟩

set_option maxRecDepth 100000 in
/-- C3, counterexample.  A style value of `18014398509481988`, which is
`2 ^ 54 + 4`, is a target at which `current += 2` stops advancing at
`2 ^ 54`: the callback asks for another frame after every frame.  A style
value of 310 digits gives the target infinity, with the same outcome.  And
on a skill without a `.percentage` element the first frame raises: the chain
stops having rendered nothing, for the target 80 as for every other. -/
theorem counter_chain_never_ends :
    counterTarget "18014398509481988" = .finite 18014398509481988 ∧
    (∀ fuel, (chainTrace fuel true ⟨.finite 0, counterTarget "18014398509481988"⟩).2 = true) ∧
    counterTarget hugeLevel = .posInf ∧
    (∀ fuel, (chainTrace fuel true ⟨.finite 0, counterTarget hugeLevel⟩).2 = true) ∧
    (∀ fuel, 1 ≤ fuel → chainTrace fuel false ⟨.finite 0, .finite 80⟩ = ([], false)) := by
  have h1 : counterTarget "18014398509481988" = .finite 18014398509481988 := by decide
  have h2 : counterTarget hugeLevel = .posInf := by decide
  refine ⟨h1, ?_, h2, ?_, ?_⟩
  · intro fuel
    rw [h1]
    exact chainTrace_stalls _ (Or.inr ⟨_, rfl, by norm_num⟩) fuel 0 (le_refl _) (by norm_num)
      (by norm_num)
  · intro fuel
    rw [h2]
    exact chainTrace_stalls _ (Or.inl rfl) fuel 0 (le_refl _) (by norm_num) (by norm_num)
  · intro fuel hfuel
    obtain ⟨f, rfl⟩ : ∃ f, fuel = f + 1 := ⟨fuel - 1, by omega⟩
    rw [chainTrace]
    rfl

/-! ## Evaluations on concrete pages -/

/-- C5, failing input.  With the reduced-motion preference and an about
section among the `.reveal` elements, evaluating the script raises a
ReferenceError at line 92: `revealOn` reaches the call `animateSkillBars()`
before line 137 has bound that name.  The about section has received
`is-visible`, the section after it has not, and nothing of the skill
sections has run. -/
theorem startup_reduced_about_raises :
    startup allInView reducedAboutPage =
      .throw (.referenceError "animateSkillBars")
        { reducedAboutPage with
          revealEls := [⟨["reveal", "is-visible"], "home"⟩,
            ⟨["reveal", "about-me", "is-visible"], "about"⟩, ⟨["reveal"], "projects"⟩] } ∧
    (startup allInView reducedAboutPage).state.revealEls.map RevealEl.isVisible
      = [true, true, false] := by
  decide

/-- C2, failing input.  On `awsPage` the counter starts while `--skill-level`
is still unset, so its target is the fallback 80; once all animation has
finished the level is `75%`, the value of the table, and the readout is
`80%`.  The same happens with the reduced-motion preference. -/
theorem readout_differs_from_level :
    awsRun.bars.skillSpans.map Span.skillLevel = [some "75%"] ∧
    awsRun.bars.skills.map Skill.percentage = [some "80%"] ∧
    awsRun.bars.skills.map Skill.session = [none] ∧
    reducedAwsRun.skillSpans.map Span.skillLevel = [some "75%"] ∧
    reducedAwsRun.skills.map Skill.percentage = [some "80%"] ∧
    reducedAwsRun.skills.map Skill.session = [none] ∧
    skillLevelText "aws" = "75%" := by
  decide

/-- C4, failing input.  With the reduced-motion preference, evaluating the
script on `reducedStyledPage` completes and leaves a frame callback
scheduled for the skill, with target 75; the first frames render `2%` and
`4%`, and the target `75%` is reached only with the thirty-eighth frame. -/
theorem reduced_motion_counter_ticks :
    (startup allInView reducedStyledPage).threw = false ∧
    (startup allInView reducedStyledPage).state.bars.prefersReducedMotion = true ∧
    (startup allInView reducedStyledPage).state.bars.skills.map Skill.session
      = [some ⟨.finite 0, .finite 75⟩] ∧
    ((startup allInView reducedStyledPage).state.bars.frames 1).skills.map Skill.percentage
      = [some "2%"] ∧
    ((startup allInView reducedStyledPage).state.bars.frames 2).skills.map Skill.percentage
      = [some "4%"] ∧
    ((startup allInView reducedStyledPage).state.bars.frames 37).skills.map Skill.percentage
      = [some "74%"] ∧
    ((startup allInView reducedStyledPage).state.bars.frames 38).skills.map Skill.percentage
      = [some "75%"] ∧
    ((startup allInView reducedStyledPage).state.bars.frames 38).skills.map Skill.session
      = [none] := by
  decide

/-- C6, failing input.  On `reducedAboutPage` (reduced motion) and on
`fallbackAboutPage` (no IntersectionObserver) the first trigger is the call
of `revealOn` on the about section while the script is being evaluated, at
line 92 and line 115.  It reaches the call `animateSkillBars()`, which raises
because line 137 has not been evaluated: the latch stays unset, no span is
processed, and since the script has stopped every later trigger of this kind
raises as well, so that the animator never runs on these pages. -/
theorem animator_never_runs_before_binding :
    SkillTrigger.calls 1 (.reveal ⟨["reveal", "about-me"], "about"⟩) = true ∧
    (SkillTrigger.run (.reveal ⟨["reveal", "about-me"], "about"⟩)
      reducedAboutPage.bars).threw = true ∧
    runTriggers [.reveal ⟨["reveal", "about-me"], "about"⟩,
      .reveal ⟨["reveal", "about-me"], "about"⟩] reducedAboutPage.bars = reducedAboutPage.bars ∧
    (startup allInView reducedAboutPage).threw = true ∧
    (startup allInView reducedAboutPage).state.bars.hasAnimatedSkills = false ∧
    (startup allInView reducedAboutPage).state.bars.skillSpans = [{ className := "aws" }] ∧
    (startup allInView reducedAboutPage).state.bars.writes = [] ∧
    (startup allInView fallbackAboutPage).threw = true ∧
    (startup allInView fallbackAboutPage).state.bars.hasAnimatedSkills = false ∧
    (startup allInView fallbackAboutPage).state.bars.skillSpans = [{ className := "aws" }] ∧
    (startup allInView fallbackAboutPage).state.bars.writes = [] := by
  decide

/-- C7, failing inputs.  First, on `fallbackAboutPage` with every element in
view: the first run of the fallback check (line 115) raises at the about
section and leaves the section after it hidden; a second run with the same
geometry skips the visible elements and reveals that section, so that two
runs do not give the state of one.  Second, on `premarkedPage`, whose about
section already carries `is-visible` while the latch is unset: the fallback
check leaves the page as it is, but the initial check, which lacks the guard
of line 108, calls `revealOn` on that element, which sets the latch and
writes the span. -/
theorem reveal_checks_not_idempotent :
    (checkReveal (fun _ => true) fallbackAboutPage).threw = true ∧
    (checkReveal (fun _ => true) fallbackAboutPage).state.revealEls.map RevealEl.isVisible
      = [true, true, false] ∧
    (checkReveal (fun _ => true)
      (checkReveal (fun _ => true) fallbackAboutPage).state).state.revealEls.map
        RevealEl.isVisible = [true, true, true] ∧
    (checkReveal (fun _ => true) (checkReveal (fun _ => true) fallbackAboutPage).state).state
      ≠ (checkReveal (fun _ => true) fallbackAboutPage).state ∧
    premarkedPage.revealEls.map RevealEl.isVisible = [true] ∧
    premarkedPage.bars.hasAnimatedSkills = false ∧
    checkReveal (fun _ => true) premarkedPage = .normal premarkedPage ∧
    initialCheck (fun _ => true) premarkedPage ≠ .normal premarkedPage ∧
    (initialCheck (fun _ => true) premarkedPage).state.bars.hasAnimatedSkills = true ∧
    (initialCheck (fun _ => true) premarkedPage).state.bars.skillSpans.map Span.skillLevel
      = [some "75%"] ∧
    (startup allInView premarkedPage).state.bars.hasAnimatedSkills = true := by
  decide

/-! ## Properties of `throttle` -/

theorem throttle_inv (wait : Int) : (throttle wait true).Inv := by
  refine ⟨rfl, le_refl _, by simp [throttle, maxTimeValue], Or.inl ⟨rfl, rfl, rfl⟩, ?_, ?_, ?_⟩
  · simp [throttle]
  · intro t ht
    simp [throttle] at ht
  · intro id hid
    simp [throttle] at hid

theorem Throttle.invoke_wait (s : Throttle) (now : Int) (r : Bool) :
    (s.invoke now r).wait = s.wait := by
  unfold Throttle.invoke
  split_ifs <;> rfl

theorem Throttle.fire_wait (s : Throttle) (id : Nat) (now : Int) (r : Bool) :
    (s.fire id now r).wait = s.wait := by
  unfold Throttle.fire
  split_ifs <;> rfl

theorem Throttle.inv_invoke (s : Throttle) (now : Int) (h : s.Inv) (hnow : 0 < now)
    (hmax : now ≤ maxTimeValue) : (s.invoke now false).Inv := by
  obtain ⟨hlead, hnext, hlmax, hlast, hchain, htimers, htimeout⟩ := h
  have hM : maxTimeValue = 8640000000000000 := rfl
  unfold Throttle.invoke
  by_cases h1 : (s.leading && s.last == 0) = true
  · rw [if_pos h1]
    have hl0 : s.last = 0 := by simpa [hlead] using h1
    rcases hlast with ⟨hc, _, ht⟩ | ⟨rest, _, hpos⟩
    · refine ⟨hlead, hnext, hmax, Or.inr ⟨[], by simp [hc], hnow⟩, ?_, ?_, htimeout⟩
      · simp [hc]
      · intro t ht1
        simp [ht] at ht1
    · omega
  · rw [if_neg h1]
    have hl0 : s.last ≠ 0 := by simpa [hlead] using h1
    obtain ⟨rest, hcalls, hpos⟩ : ∃ rest, s.calls = s.last :: rest ∧ 0 < s.last := by
      rcases hlast with ⟨_, h0, _⟩ | h
      · exact absurd h0 hl0
      · exact h
    have hd : doubleOfInt (now - s.last) = now - s.last :=
      doubleOfInt_exact _ (by omega) (by omega)
    rw [hd]
    by_cases h2 : now - s.last ≥ s.wait
    · rw [if_pos h2]
      refine ⟨hlead, hnext, hmax, Or.inr ⟨s.calls, rfl, hnow⟩, ?_, ?_, htimeout⟩
      · show List.Chain' (fun later earlier => earlier + s.wait ≤ later) (now :: s.calls)
        rw [hcalls] at hchain ⊢
        exact List.Chain'.cons (by omega) hchain
      · intro t ht
        exfalso
        cases hto : s.timeout with
        | none =>
          simp only [hto] at ht
          have := (htimers t ht).1
          rw [hto] at this
          exact Option.noConfusion this
        | some id =>
          simp only [hto] at ht
          have hset : timeoutSet (some id) = true := by
            simpa [timeoutSet] using htimeout id hto
          rw [if_pos hset] at ht
          have hmem := List.mem_filter.mp ht
          have hid := (htimers t hmem.1).1
          rw [hto] at hid
          have : id = t.id := Option.some.inj hid
          simp [this] at hmem
    · rw [if_neg h2]
      by_cases h3 : (!timeoutSet s.timeout) = true
      · rw [if_pos h3]
        have hnone : s.timers = [] := by
          cases hts : s.timers with
          | nil => rfl
          | cons t ts =>
            have ht := htimers t (by simp [hts])
            rw [ht.1] at h3
            simp [timeoutSet, ht.2.1] at h3
        have hdue : s.last + s.wait ≤ now + doubleOfInt (s.wait - (now - s.last)) ∨
            maxTimeValue < now + doubleOfInt (s.wait - (now - s.last)) := by
          by_cases hy : s.wait - (now - s.last) ≤ 2 ^ 53
          · left
            rw [doubleOfInt_exact _ (by omega) hy]
            omega
          · right
            have := doubleOfInt_ge (s.wait - (now - s.last)) (by omega)
            omega
        refine ⟨hlead, by show 1 ≤ s.nextId + 1; omega, hlmax, Or.inr ⟨rest, hcalls, hpos⟩,
          hchain, ?_, ?_⟩
        · intro t ht
          simp only [hnone, List.mem_singleton] at ht
          subst ht
          exact ⟨rfl, by show s.nextId ≠ 0; omega, hdue⟩
        · intro id hid
          have : s.nextId = id := Option.some.inj hid
          omega
      · rw [if_neg h3]
        exact ⟨hlead, hnext, hlmax, Or.inr ⟨rest, hcalls, hpos⟩, hchain, htimers, htimeout⟩

theorem Throttle.inv_fire (s : Throttle) (id : Nat) (now : Int) (h : s.Inv) (hnow : 0 < now)
    (hmax : now ≤ maxTimeValue)
    (hdue : s.timers.any (fun t => t.id == id && decide (t.due ≤ now)) = true) :
    (s.fire id now false).Inv := by
  obtain ⟨hlead, hnext, hlmax, hlast, hchain, htimers, htimeout⟩ := h
  obtain ⟨t, ht, htid⟩ := List.any_eq_true.mp hdue
  simp only [Bool.and_eq_true, beq_iff_eq, decide_eq_true_eq] at htid
  obtain ⟨hid, hdue2⟩ := htid
  have hany : s.timers.any (fun t => t.id == id) = true :=
    List.any_eq_true.mpr ⟨t, ht, by simp [hid]⟩
  obtain ⟨rest, hcalls, hpos⟩ : ∃ rest, s.calls = s.last :: rest ∧ 0 < s.last := by
    rcases hlast with ⟨_, _, h0⟩ | h
    · rw [h0] at ht
      simp at ht
    · exact h
  unfold Throttle.fire
  rw [if_pos hany]
  refine ⟨hlead, hnext, hmax, Or.inr ⟨s.calls, rfl, hnow⟩, ?_, ?_, ?_⟩
  · show List.Chain' (fun later earlier => earlier + s.wait ≤ later) (now :: s.calls)
    rw [hcalls] at hchain ⊢
    have := (htimers t ht).2.2
    exact List.Chain'.cons (by omega) hchain
  · intro t1 ht1
    exfalso
    have hmem := List.mem_filter.mp ht1
    have h1 := (htimers t1 hmem.1).1
    have h2 := (htimers t ht).1
    rw [h2] at h1
    have : t.id = t1.id := Option.some.inj h1
    simp [← this, hid] at hmem
  · intro id1 hid1
    exact Option.noConfusion hid1

theorem Throttle.inv_run (es : List ThrottleEvent) :
    ∀ (s : Throttle) (clock : Int), s.Inv → admissible s clock es = true →
      returnsNormally es = true → (s.run es).Inv ∧ (s.run es).wait = s.wait := by
  induction es with
  | nil => intro s clock h _ _; exact ⟨h, rfl⟩
  | cons e es ih =>
    intro s clock h hadm hret
    simp only [admissible, Bool.and_eq_true, decide_eq_true_eq] at hadm
    obtain ⟨⟨⟨⟨hpos, _⟩, hmax⟩, hfire⟩, hrest⟩ := hadm
    simp only [returnsNormally, List.all_cons, Bool.and_eq_true, Bool.not_eq_true'] at hret
    obtain ⟨hr, hrs⟩ := hret
    cases e with
    | invoke now r =>
      have hr0 : r = false := hr
      subst hr0
      have := ih (s.step (.invoke now false)) now (Throttle.inv_invoke s now h hpos hmax) hrest
        (by simpa [returnsNormally] using hrs)
      exact ⟨this.1, this.2.trans (Throttle.invoke_wait s now false)⟩
    | fire id now r =>
      have hr0 : r = false := hr
      subst hr0
      have := ih (s.step (.fire id now false)) now
        (Throttle.inv_fire s id now h hpos hmax hfire) hrest
        (by simpa [returnsNormally] using hrs)
      exact ⟨this.1, this.2.trans (Throttle.fire_wait s id now false)⟩

/-- C9, counterexample.  With a wait of 100 ms, let `fn` raise in the first
invocation, at clock 1000.  The assignment `last = now` is skipped, so the
invocation at clock 1005 is treated as the first one again and runs `fn`:
two runs 5 ms apart, under a positive non-decreasing clock and without any
timer. -/
theorem throttle_spacing_broken_by_raise :
    admissible (throttle 100 true) 0 [.invoke 1000 true, .invoke 1005 false] = true ∧
    ((throttle 100 true).run [.invoke 1000 true, .invoke 1005 false]).calls = [1005, 1000] ∧
    ((throttle 100 true).run [.invoke 1000 true]).last = 0 ∧
    ¬ List.Chain' (fun later earlier => earlier + 100 ≤ later)
      ((throttle 100 true).run [.invoke 1000 true, .invoke 1005 false]).calls := by
  refine ⟨by decide, by decide, by decide, ?_⟩
  have hcalls : ((throttle 100 true).run [.invoke 1000 true, .invoke 1005 false]).calls
      = [1005, 1000] := by decide
  rw [hcalls]
  intro hchain
  have := List.Chain'.rel_head hchain
  omega

/-- C9, as amended.  For every `wait` and every sequence of invocations and
timer firings of a fresh wrapper `throttle(fn, wait)` under a positive,
non-decreasing clock with timers that fire no earlier than they are due, as
long as `fn` returns normally whenever it runs, any two successive runs of
`fn` are at least `wait` apart; the first event of such a sequence is an
invocation, and it runs `fn` at once. -/
theorem throttle_min_spacing (wait : Int) (es : List ThrottleEvent)
    (h : admissible (throttle wait true) 0 es = true) (hret : returnsNormally es = true) :
    List.Chain' (fun later earlier => earlier + wait ≤ later)
      ((throttle wait true).run es).calls ∧
    (∀ e rest, es = e :: rest →
      ∃ now, e = .invoke now false ∧ ((throttle wait true).step e).calls = [now]) := by
  constructor
  · obtain ⟨hinv, hwait⟩ :=
      Throttle.inv_run es (throttle wait true) 0 (throttle_inv wait) h hret
    have hchain := hinv.2.2.2.2.1
    rw [hwait] at hchain
    exact hchain
  · intro e rest hes
    subst hes
    simp only [returnsNormally, List.all_cons, Bool.and_eq_true, Bool.not_eq_true'] at hret
    cases e with
    | invoke now r =>
      have hr0 : r = false := hret.1
      subst hr0
      exact ⟨now, rfl, rfl⟩
    | fire id now r =>
      simp [admissible, throttle] at h

/-- C9, witness: a burst, the trailing timer, and two later invocations. -/
theorem throttle_min_spacing_witness :
    admissible (throttle 100 true) 0
      [.invoke 1000 false, .invoke 1010 false, .invoke 1020 false, .fire 1 1100 false,
        .invoke 1101 false, .invoke 1250 false] = true ∧
    returnsNormally
      [.invoke 1000 false, .invoke 1010 false, .invoke 1020 false, .fire 1 1100 false,
        .invoke 1101 false, .invoke 1250 false] = true ∧
    List.Chain' (fun later earlier => earlier + 100 ≤ later)
      ((throttle 100 true).run
        [.invoke 1000 false, .invoke 1010 false, .invoke 1020 false, .fire 1 1100 false,
          .invoke 1101 false, .invoke 1250 false]).calls :=
  ⟨by decide, by decide, (throttle_min_spacing 100 _ (by decide) (by decide)).1⟩

/-- With `leading = false` the first invocation still runs `fn` at once:
`last` is zero, so `now - last >= wait` holds and the second branch runs. -/
theorem throttle_without_leading_runs_at_once :
    ((throttle 100 false).invoke 1000 false).calls = [1000] ∧
    ((throttle 100 false).invoke 1000 false).timers = [] := by
  decide

theorem invoke_first (wait t0 : Int) (h0 : t0 ≠ 0) (t : Int)
    (ht : doubleOfInt (t - t0) < wait) :
    (((throttle wait true).invoke t0 false).invoke t false)
      = burstState wait t0 (t + doubleOfInt (wait - doubleOfInt (t - t0))) := by
  have h2 : ¬ (wait ≤ doubleOfInt (t - t0)) := by omega
  simp only [throttle, Throttle.invoke, Bool.true_and, beq_self_eq_true, if_true, beq_iff_eq, h0,
    if_false, ge_iff_le, h2, timeoutSet, Bool.not_false, burstState, Bool.false_eq_true]

theorem invoke_burst (wait t0 due : Int) (h0 : t0 ≠ 0) (t : Int)
    (ht : doubleOfInt (t - t0) < wait) :
    (burstState wait t0 due).invoke t false = burstState wait t0 due := by
  have h2 : ¬ (wait ≤ doubleOfInt (t - t0)) := by omega
  simp [burstState, Throttle.invoke, h0, h2, timeoutSet]

theorem run_burst (wait t0 due : Int) (h0 : t0 ≠ 0) (ts : List Int)
    (hts : ∀ t ∈ ts, doubleOfInt (t - t0) < wait) :
    (burstState wait t0 due).run (ts.map (fun t => .invoke t false)) = burstState wait t0 due := by
  induction ts with
  | nil => rfl
  | cons t ts ih =>
    simp only [List.map_cons, Throttle.run, Throttle.step]
    rw [invoke_burst wait t0 due h0 t (hts t (by simp))]
    exact ih (fun t1 h1 => hts t1 (by simp [h1]))

theorem run_first (wait t0 : Int) (h0 : t0 ≠ 0) (t1 : Int) (ts : List Int)
    (hts : ∀ t ∈ t1 :: ts, doubleOfInt (t - t0) < wait) :
    (throttle wait true).run (.invoke t0 false :: (t1 :: ts).map (fun t => .invoke t false)) =
      burstState wait t0 (t1 + doubleOfInt (wait - doubleOfInt (t1 - t0))) := by
  simp only [List.map_cons, Throttle.run, Throttle.step]
  rw [invoke_first wait t0 h0 t1 (hts t1 (by simp))]
  rw [run_burst wait t0 _ h0 ts (fun t2 h2 => hts t2 (by simp [h2]))]

/-- C8, counterexample.  Three runs against the claim, each for a fresh
wrapper `throttle(fn, 100)`.  A single invocation (`n = 1`) runs `fn` once
and never creates a timer.  When `fn` raises in the first invocation, `last`
stays zero, the second invocation runs `fn` again, the third sets the timer,
and `fn` has run three times once the timer has fired.  The same happens
when `Date.now()` is zero at the first invocation, since `last = 0` is what
marks a wrapper that has not run yet. -/
theorem throttle_burst_broken :
    ((throttle 100 true).run [.invoke 1000 false]).created = 0 ∧
    ((throttle 100 true).run [.invoke 1000 false]).timers = [] ∧
    ((throttle 100 true).run
      [.invoke 1000 true, .invoke 1005 false, .invoke 1010 false, .fire 1 1105 false]).calls
        = [1105, 1005, 1000] ∧
    ((throttle 100 true).run
      [.invoke 0 false, .invoke 5 false, .invoke 10 false, .fire 1 105 false]).calls
        = [105, 5, 0] := by
  decide

/-- C8, as amended.  Let a fresh wrapper `throttle(fn, wait)` be invoked when
`Date.now()` is `t0`, not zero, and then at the times `ts`, at each of which
the wrapper finds `now - last < wait`, and let `fn` return normally.  Then
`fn` has run once, at `t0`; no timer was created when `ts` is empty and
exactly one otherwise, due at `t0 + wait` when `wait` is at most `2 ^ 53`;
after every initial part of the burst at most one timer is pending; and when
that timer fires, `fn` has run twice in total and no timer is left. -/
theorem throttle_burst (wait t0 : Int) (ts : List Int) (h0 : t0 ≠ 0)
    (hts : ∀ t ∈ ts, doubleOfInt (t - t0) < wait) :
    ((throttle wait true).run (.invoke t0 false :: ts.map (fun t => .invoke t false))).calls
      = [t0] ∧
    ((throttle wait true).run (.invoke t0 false :: ts.map (fun t => .invoke t false))).timers.length
      = (if ts = [] then 0 else 1) ∧
    ((throttle wait true).run (.invoke t0 false :: ts.map (fun t => .invoke t false))).created
      = (if ts = [] then 0 else 1) ∧
    (∀ t1 rest, ts = t1 :: rest → 0 ≤ t1 - t0 → wait ≤ 2 ^ 53 →
      ((throttle wait true).run (.invoke t0 false :: ts.map (fun t => .invoke t false))).timers
        = [⟨1, t0 + wait⟩]) ∧
    (∀ k, ((throttle wait true).run
      (.invoke t0 false :: (ts.take k).map (fun t => .invoke t false))).timers.length ≤ 1) ∧
    (∀ tf, (((throttle wait true).run
        (.invoke t0 false :: ts.map (fun t => .invoke t false))).fire 1 tf false).calls
      = (if ts = [] then [t0] else [tf, t0]) ∧
      (((throttle wait true).run
        (.invoke t0 false :: ts.map (fun t => .invoke t false))).fire 1 tf false).timers = [] ∧
      (((throttle wait true).run
        (.invoke t0 false :: ts.map (fun t => .invoke t false))).fire 1 tf false).created
        = (if ts = [] then 0 else 1)) := by
  have hfirst : (throttle wait true).run [.invoke t0 false]
      = ⟨wait, true, t0, none, [], 1, [t0], 0⟩ := by
    simp [throttle, Throttle.run, Throttle.step, Throttle.invoke, h0]
  have hprefix : ∀ l : List Int, (∀ t ∈ l, doubleOfInt (t - t0) < wait) →
      ((throttle wait true).run
        (.invoke t0 false :: l.map (fun t => .invoke t false))).timers.length ≤ 1 := by
    intro l hl
    cases l with
    | nil => simp [hfirst]
    | cons t1 rest =>
      rw [run_first wait t0 h0 t1 rest hl]
      simp [burstState]
  cases ts with
  | nil =>
    refine ⟨by simp [hfirst], by simp [hfirst], by simp [hfirst], ?_, ?_, ?_⟩
    · intro t1 rest h
      exact absurd h (by simp)
    · intro k
      simp [hfirst]
    · intro tf
      simp [hfirst, Throttle.fire]
  | cons t1 rest =>
    have hrun := run_first wait t0 h0 t1 rest hts
    rw [hrun]
    refine ⟨rfl, by simp [burstState], by simp [burstState], ?_, ?_, ?_⟩
    · intro t2 rest2 heq hge hw
      obtain ⟨rfl, rfl⟩ : t1 = t2 ∧ rest = rest2 := by simpa using heq
      have hlt := hts t1 (by simp)
      have hsmall : t1 - t0 < 2 ^ 53 := by
        by_contra hbig
        have := doubleOfInt_ge (t1 - t0) (by omega)
        omega
      have hd : doubleOfInt (t1 - t0) = t1 - t0 := doubleOfInt_exact _ (by omega) (by omega)
      rw [hd] at hlt
      have hd2 : doubleOfInt (wait - (t1 - t0)) = wait - (t1 - t0) :=
        doubleOfInt_exact _ (by omega) (by omega)
      simp only [burstState, hd, hd2]
      congr 2
      omega
    · intro k
      exact hprefix _ (fun t ht => hts t (List.mem_of_mem_take ht))
    · intro tf
      simp [burstState, Throttle.fire, clearTimer]

/-- C8, witness: ten invocations within 50 ms of a wrapper with a wait of
100 ms. -/
theorem throttle_burst_witness :
    (1000 : Int) ≠ 0 ∧
    (∀ t ∈ ([1005, 1010, 1015, 1020, 1025, 1030, 1035, 1040, 1045] : List Int),
      doubleOfInt (t - 1000) < 100) ∧
    ((throttle 100 true).run (.invoke 1000 false ::
      ([1005, 1010, 1015, 1020, 1025, 1030, 1035, 1040, 1045] : List Int).map
        (fun t => .invoke t false))).calls = [1000] ∧
    ((throttle 100 true).run (.invoke 1000 false ::
      ([1005, 1010, 1015, 1020, 1025, 1030, 1035, 1040, 1045] : List Int).map
        (fun t => .invoke t false))).timers = [⟨1, 1100⟩] :=
  ⟨by decide, by decide,
   (throttle_burst 100 1000 [1005, 1010, 1015, 1020, 1025, 1030, 1035, 1040, 1045]
      (by decide) (by decide)).1,
   (throttle_burst 100 1000 [1005, 1010, 1015, 1020, 1025, 1030, 1035, 1040, 1045]
      (by decide) (by decide)).2.2.2.1 1005 _ rfl (by decide) (by norm_num)⟩

/-! ## Properties of the slideshow -/

theorem wrapIndex_eq_emod (n : Int) (len : Nat) (h : 0 < len) :
    wrapIndex n len = n % (len : Int) := by
  have hL : (0 : Int) < len := by exact_mod_cast h
  have hlow : -(len : Int) < Int.tmod n len := by
    rcases n with m | m
    · have : (0 : Int) ≤ Int.tmod (Int.ofNat m) len := Int.tmod_nonneg _ (Int.ofNat_nonneg m)
      omega
    · have hlt : (m + 1) % len < len := Nat.mod_lt _ h
      show -(len : Int) < -((((m + 1) % len : Nat)) : Int)
      omega
  have hcong : Int.tmod n len % (len : Int) = n % (len : Int) := by
    rw [Int.tmod_def, Int.sub_eq_add_neg, ← Int.mul_neg, Int.add_mul_emod_self_left]
  unfold wrapIndex
  rw [Int.tmod_eq_emod (by omega) (by omega), Int.add_emod_self, hcong]

theorem showSlide_slideIndex (s : Slideshow) (n : Int) (h : 0 < s.slides.length) :
    (showSlide s n).slideIndex = n % (s.slides.length : Int) := by
  have h0 : s.slides.length ≠ 0 := by omega
  simp [showSlide, h0, wrapIndex_eq_emod n _ h]

theorem showSlide_length (s : Slideshow) (n : Int) :
    (showSlide s n).slides.length = s.slides.length := by
  unfold showSlide
  split <;> simp

theorem showSlide_slide (s : Slideshow) (n : Int) (h : 0 < s.slides.length)
    (i : Nat) (hi : i < (showSlide s n).slides.length) :
    ((showSlide s n).slides.get ⟨i, hi⟩).display
        = (if (i : Int) = (showSlide s n).slideIndex then "block" else "none") ∧
    ("active" ∈ ((showSlide s n).slides.get ⟨i, hi⟩).classes
        ↔ (i : Int) = (showSlide s n).slideIndex) := by
  have h0 : s.slides.length ≠ 0 := by omega
  have hslides : (showSlide s n).slides = s.slides.mapIdx fun i sl =>
      ({ display := if (i : Int) = wrapIndex n s.slides.length then "block" else "none"
         classes := classListToggle sl.classes "active"
           (decide ((i : Int) = wrapIndex n s.slides.length)) } : Slide) := by
    simp [showSlide, h0]
  have hidx : (showSlide s n).slideIndex = wrapIndex n s.slides.length := by
    simp [showSlide, h0]
  rw [hidx]
  simp only [List.get_eq_getElem, hslides, List.getElem_mapIdx, classListToggle_mem_iff,
    decide_eq_true_eq, and_self]

theorem nextSlides_slideIndex (k : Nat) (s : Slideshow) (h : 0 < s.slides.length) :
    (nextSlides (k + 1) s).slideIndex = (s.slideIndex + (k + 1 : Nat)) % (s.slides.length : Int) := by
  induction k generalizing s with
  | zero =>
    simp [nextSlides, nextSlide, showSlide_slideIndex _ _ h]
  | succ k ih =>
    have hlen : (nextSlide s).slides.length = s.slides.length := showSlide_length _ _
    have := ih (nextSlide s) (by rw [hlen]; exact h)
    rw [nextSlides, this, hlen]
    simp only [nextSlide, showSlide_slideIndex _ _ h]
    rw [Int.emod_add_emod]
    congr 1
    push_cast
    ring

/-- C10, counterexample.  On three slides `currentSlide(-9007199254740992)`
selects the slide at index 1: the argument is `-2 ^ 53`, and `n - 1` rounds
back to `-2 ^ 53`, whose remainder is 1, whereas `(n - 1) mod 3` is 0. -/
theorem currentSlide_rounds :
    (currentSlide threeSlides (-9007199254740992)).slideIndex = 1 ∧
    (-9007199254740992 - 1 : Int) % 3 = 0 ∧
    (currentSlide threeSlides (-9007199254740992)).slides.map Slide.display
      = ["none", "block", "none"] := by
  decide

/-- C10, as amended.  With `L = slides.length > 0`: `showSlide(n)` sets
`slideIndex` to `n mod L` for every integer `n`, and `currentSlide(n)` sets it
to `(n - 1) mod L` for every integer `n` with `-2 ^ 53 < n ≤ 2 ^ 53`, the
index in `[0, L)` congruent to the request; afterwards the slide at
`slideIndex` has display `block` and class `active`, and every other slide
has display `none` and no class `active`; `prevSlide` after `nextSlide`
restores `slideIndex`, and `L` calls of `nextSlide` return to the starting
index, whenever the starting index lies in `[0, L)`. -/
theorem slideshow_wraps (s : Slideshow) (n : Int) (h : 0 < s.slides.length) :
    (showSlide s n).slideIndex = n % (s.slides.length : Int) ∧
    (-(2 ^ 53) < n → n ≤ 2 ^ 53 →
      (currentSlide s n).slideIndex = (n - 1) % (s.slides.length : Int) ∧
      (currentSlide s n).slides = (showSlide s (n - 1)).slides) ∧
    (0 ≤ (showSlide s n).slideIndex ∧ (showSlide s n).slideIndex < s.slides.length) ∧
    ((s.slides.length : Int) ∣ n - (showSlide s n).slideIndex) ∧
    (∀ j : Int, 0 ≤ j → j < s.slides.length → (s.slides.length : Int) ∣ n - j →
      j = (showSlide s n).slideIndex) ∧
    (showSlide s n).slides.length = s.slides.length ∧
    (∀ (i : Nat) (hi : i < (showSlide s n).slides.length),
      ((i : Int) = (showSlide s n).slideIndex →
        ((showSlide s n).slides.get ⟨i, hi⟩).display = "block" ∧
        "active" ∈ ((showSlide s n).slides.get ⟨i, hi⟩).classes) ∧
      ((i : Int) ≠ (showSlide s n).slideIndex →
        ((showSlide s n).slides.get ⟨i, hi⟩).display = "none" ∧
        "active" ∉ ((showSlide s n).slides.get ⟨i, hi⟩).classes)) ∧
    (0 ≤ s.slideIndex → s.slideIndex < s.slides.length →
      (prevSlide (nextSlide s)).slideIndex = s.slideIndex ∧
      (nextSlides s.slides.length s).slideIndex = s.slideIndex) := by
  have hL : (0 : Int) < s.slides.length := by exact_mod_cast h
  have h0 : s.slides.length ≠ 0 := by omega
  have hidx := showSlide_slideIndex s n h
  refine ⟨hidx, ?_, ?_, ?_, ?_, showSlide_length s n, ?_, ?_⟩
  · intro hlo hhi
    have hd : doubleOfInt (n - 1) = n - 1 := doubleOfInt_exact _ (by omega) (by omega)
    simp only [currentSlide, h0, if_false, hd]
    constructor
    · have : (startSlides (stopSlides (showSlide s (n - 1)))).slideIndex
          = (showSlide s (n - 1)).slideIndex := by
        unfold startSlides stopSlides
        split <;> rfl
      rw [this, showSlide_slideIndex s (n - 1) h]
    · unfold startSlides stopSlides
      split <;> rfl
  · rw [hidx]
    exact ⟨Int.emod_nonneg _ (by omega), Int.emod_lt_of_pos _ hL⟩
  · rw [hidx]
    exact Int.dvd_sub_of_emod_eq rfl
  · intro j hj0 hjL hdvd
    rw [hidx]
    have hmod : n % (s.slides.length : Int) = j % (s.slides.length : Int) :=
      Int.emod_eq_emod_iff_emod_sub_eq_zero.mpr (Int.emod_eq_zero_of_dvd hdvd)
    rw [hmod, Int.emod_eq_of_lt hj0 hjL]
  · intro i hi
    have hs := showSlide_slide s n h i hi
    refine ⟨fun heq => ?_, fun hne => ?_⟩
    · exact ⟨by rw [hs.1, if_pos heq], hs.2.mpr heq⟩
    · exact ⟨by rw [hs.1, if_neg hne], fun hmem => hne (hs.2.mp hmem)⟩
  · intro hlo hhi
    constructor
    · have hlen : (nextSlide s).slides.length = s.slides.length := showSlide_length _ _
      unfold prevSlide
      rw [showSlide_slideIndex _ _ (by rw [hlen]; exact h), hlen]
      simp only [nextSlide, showSlide_slideIndex _ _ h]
      rw [Int.sub_eq_add_neg, Int.emod_add_emod]
      have hcancel : s.slideIndex + 1 + -1 = s.slideIndex := by ring
      rw [hcancel]
      exact Int.emod_eq_of_lt hlo hhi
    · obtain ⟨k, hk⟩ : ∃ k, s.slides.length = k + 1 := ⟨s.slides.length - 1, by omega⟩
      have hn := nextSlides_slideIndex k s h
      rw [← hk] at hn
      rw [hn, Int.add_emod_self]
      exact Int.emod_eq_of_lt hlo hhi

/-- C10, witness: three slides, request `-4`. -/
theorem slideshow_wraps_witness :
    0 < threeSlides.slides.length ∧
    (showSlide threeSlides (-4)).slideIndex = -4 % ((3 : Nat) : Int) ∧
    (currentSlide threeSlides (-4)).slideIndex = (-4 - 1) % ((3 : Nat) : Int) :=
  ⟨by decide, (slideshow_wraps threeSlides (-4) (by decide)).1,
    ((slideshow_wraps threeSlides (-4) (by decide)).2.1 (by norm_num) (by norm_num)).1⟩

/-! ## Instances -/

/-- An instance of the latch: on `twoSpanBars` the run of `sampleTriggers`
equals one call of `animateSkillBars`. -/
theorem animateSkillBars_once_witness :
    twoSpanBars.animateSkillBarsReady = true ∧
    runTriggers sampleTriggers twoSpanBars = animateSkillBars twoSpanBars :=
  ⟨rfl, (animateSkillBars_once twoSpanBars sampleTriggers rfl).1⟩

/-- An instance: the fallback check on the visible about section of
`premarkedPage`. -/
theorem reveal_check_on_visible_witness :
    RevealEl.isVisible ⟨["reveal", "is-visible", "about-me"], "about"⟩ = true ∧
    checkRevealEl (fun _ => true) 0 ⟨["reveal", "is-visible", "about-me"], "about"⟩
      premarkedPage.bars
      = .normal (⟨["reveal", "is-visible", "about-me"], "about"⟩, premarkedPage.bars) :=
  ⟨by decide,
   (reveal_check_on_visible (fun _ => true) 0 ⟨["reveal", "is-visible", "about-me"], "about"⟩
      premarkedPage.bars premarkedPage (by decide)).1⟩

end Portfolio
